import Mathlib

/-!
Verification of the go-comic-converter ingestion pipeline.

This file gives a shallow embedding, in Lean 4, of the page-loading code of
the go-comic-converter repository:

  - src/internal/epub/imageprocessor/epub_image_processor_loader.go
    (the four container loaders loadDir, loadCbz, loadCbr, loadPdf and
    their helper isSupportedImage), and
  - src/main.go (option validation and output-path resolution).

Pure Go standard-library functions used by that code (strings.ToLower,
filepath.Ext, filepath.Clean, filepath.Split, filepath.Base, filepath.Join)
are modelled as Lean functions over strings, faithful to their Go
implementations on unix paths.  File-system and codec effects (os.Open,
image.Decode, zip and rar readers, the pdf library) are modelled by an
explicit environment of oracles; the bounded worker pools are modelled by a
sequential traversal of the job queue, which preserves every per-task field
the claims speak about, and a worker calling os.Exit(1) is modelled as an
error value carrying the written message and the exit code.
-/

/-! ## Models of Go standard library helpers -/

/-- Model of Go strings.ToLower restricted to ASCII (the extensions the
loader compares are ASCII). -/
def goToLower (s : String) : String := String.mk (s.data.map Char.toLower)

/-- Split a character list on the path separator; an auxiliary accumulator
holds the current element reversed. -/
def splitOnSlashAux : List Char → List Char → List String
  | [], acc => [String.mk acc.reverse]
  | c :: rest, acc =>
    if c = '/' then String.mk acc.reverse :: splitOnSlashAux rest []
    else splitOnSlashAux rest (c :: acc)

/-- The separator-split of a path, as Go strings.Split(path, "/"). -/
def splitOnSlash (p : String) : List String := splitOnSlashAux p.data []

/-- Join path elements with the separator, as Go strings.Join(l, "/"). -/
def joinSlash : List String → String
  | [] => ""
  | [s] => s
  | s :: rest => s ++ "/" ++ joinSlash rest

/-- Drop the first n characters of a string (a Go slice expression s[n:]
on its ASCII paths). -/
def stringDrop (s : String) (n : Nat) : String := String.mk (s.data.drop n)

/-- Drop the last n characters of a string (a Go slice expression
s[0:len(s)-n] on its ASCII paths). -/
def stringDropRight (s : String) (n : Nat) : String :=
  String.mk (s.data.take (s.data.length - n))

/-- Auxiliary scanner for filepath.Ext: walk the path from the end; stop at
the first path separator, return the suffix from the first dot found. -/
def goExtAux : List Char → List Char → List Char
  | _, [] => []
  | acc, c :: rest =>
    if c = '/' then []
    else if c = '.' then c :: acc
    else goExtAux (c :: acc) rest

/-- Model of Go filepath.Ext: the suffix beginning at the final dot in the
final element of the path; empty if there is none. -/
def filepathExt (p : String) : String := String.mk (goExtAux [] p.data.reverse)

/-- One step of the element processing of Go filepath.Clean: drop empty and
dot elements, let dotdot cancel a previous element, keep leading dotdots of
a relative path. The accumulator holds the output elements reversed. -/
def goCleanStep (rooted : Bool) (out : List String) (seg : String) : List String :=
  if seg = "" || seg = "." then out
  else if seg = ".." then
    match out with
    | [] => if rooted then [] else [".."]
    | last :: rest => if last = ".." then seg :: out else rest
  else seg :: out

/-- Model of Go filepath.Clean for unix paths. -/
def filepathClean (p : String) : String :=
  if p = "" then "."
  else
    let rooted : Bool :=
      match p.data with
      | '/' :: _ => true
      | _ => false
    let segs := splitOnSlash p
    let out := (segs.foldl (goCleanStep rooted) []).reverse
    let s := joinSlash out
    if rooted then (if s = "" then "/" else "/" ++ s)
    else (if s = "" then "." else s)

/-- Model of Go filepath.Split: splits the path immediately after the final
path separator; the directory part keeps its trailing separator. -/
def filepathSplit (p : String) : String × String :=
  let revFile := p.data.reverse.takeWhile (fun c => c ≠ '/')
  (String.mk (p.data.take (p.data.length - revFile.length)), String.mk revFile.reverse)

/-- Model of Go filepath.Base: the last element of the path, after dropping
trailing separators; "." for the empty path, "/" for a path of separators. -/
def filepathBase (p : String) : String :=
  if p = "" then "."
  else
    let t := p.data.reverse.dropWhile (fun c => c = '/')
    let name := t.takeWhile (fun c => c ≠ '/')
    if name = [] then "/" else String.mk name.reverse

/-- Model of Go filepath.Join on two elements: empty elements are dropped,
the rest are joined with a separator and cleaned. -/
def filepathJoin (a b : String) : String :=
  if a ≠ "" then filepathClean (a ++ "/" ++ b)
  else if b ≠ "" then filepathClean b
  else ""

/-! ## Model of the sortpath package

The sortpath package is part of this repository but its source is not under
src/; only its caller (sort.Sort(sortpath.By(names, e.SortPathMode))) is.
The definitions below are modelled from the spec. -/

/-- Split a list of characters into maximal runs of digits and non-digits. -/
def splitRuns : List Char → List (List Char)
  | [] => []
  | c :: rest =>
    match splitRuns rest with
    | [] => [[c]]
    | r :: rs =>
      if (r.headD c).isDigit == c.isDigit then (c :: r) :: rs else [c] :: r :: rs

/-- Numeric value of a run of decimal digits. -/
def runVal (r : List Char) : Nat := r.foldl (fun n c => n * 10 + (c.toNat - 48)) 0

/-- Modelled from the spec: compare two runs; runs of digits compare by
numeric value, with a lexicographic tie-break, anything else compares
lexicographically. -/
def runCmp (a b : List Char) : Ordering :=
  if a.all Char.isDigit && b.all Char.isDigit && !a.isEmpty && !b.isEmpty then
    match compare (runVal a) (runVal b) with
    | Ordering.eq => compare (String.mk a) (String.mk b)
    | o => o
  else compare (String.mk a) (String.mk b)

/-- Lexicographic comparison of lists by a given element comparison. -/
def listCmpWith (f : α → α → Ordering) : List α → List α → Ordering
  | [], [] => Ordering.eq
  | [], _ :: _ => Ordering.lt
  | _ :: _, [] => Ordering.gt
  | a :: as, b :: bs =>
    match f a b with
    | Ordering.eq => listCmpWith f as bs
    | o => o

/-- Modelled from the spec: natural comparison of one path segment,
comparing embedded numeric runs by value. -/
def segCmp (a b : String) : Ordering := listCmpWith runCmp (splitRuns a.data) (splitRuns b.data)

/-- Modelled from the spec: natural path ordering, applied
directory-segment by directory-segment. -/
def natPathLEb (a b : String) : Bool :=
  listCmpWith segCmp (splitOnSlash a) (splitOnSlash b) ≠ Ordering.gt

/-- Modelled from the spec: sort.Sort(sortpath.By(names, mode)) produces a
permutation of the enumerated names ordered by the natural path order; the
sort mode selects details of the comparison that no claim depends on. -/
def sortpathBy (_mode : Nat) (l : List String) : List String :=
  l.insertionSort (fun a b => natPathLEb a b = true)

/-- The sorted name list is a permutation of the input list. -/
theorem sortpathBy_perm (mode : Nat) (l : List String) : List.Perm (sortpathBy mode l) l :=
  List.perm_insertionSort _ l

/-! ## Data model of the loader -/

/-- Model of an image.Image value: an abstract decoded raster. -/
structure GoImg where
  val : Nat
deriving DecidableEq, Repr

/-- The tasks struct emitted by every loader (Id, Image, Path, Name); a nil
image.Image is Option.none. -/
structure tasks where
  Id : Nat
  Image : Option GoImg
  Path : String
  Name : String
deriving DecidableEq, Repr

/-- A worker or producer calling os.Exit after writing a message: the
message written to stderr and the process exit code. -/
structure Fatal where
  msg : String
  code : Nat
deriving DecidableEq, Repr

/-- Errors returned by a loader: the errNoImagesFound sentinel is a
distinct constructor; every other Go error is goError with its text. -/
inductive LoadError where
  | noImagesFound
  | goError (msg : String)
deriving DecidableEq, Repr

/-- An entry seen by filepath.WalkDir: its path and whether it is a
directory. -/
structure DirEntry where
  path : String
  isDir : Bool
deriving DecidableEq, Repr

/-- A zip archive member: its name and whether it is a directory member. -/
structure ZipEntry where
  name : String
  isDir : Bool
deriving DecidableEq, Repr

/-- A rar archive member as reported by rardecode.List and streamed by
rardecode.OpenReader: name, directory flag, solid flag, and content
bytes. -/
structure RarEntry where
  name : String
  isDir : Bool
  solid : Bool
  content : List Nat
deriving DecidableEq, Repr

/-- How a cbr job reaches its bytes: a fully buffered in-memory copy (the
solid-archive path) or a lazy per-entry Open call (the listing path). -/
inductive CbrData where
  | buffered (bytes : List Nat)
  | viaOpen
deriving DecidableEq, Repr

/-- A job on the cbr worker queue. -/
structure CbrJob where
  id : Nat
  name : String
  data : CbrData
deriving DecidableEq, Repr

/-- Oracles for the effectful operations of a run: opening and decoding a
page (keyed by its path or archive-member name), opening a rar archive
sequentially, the successive r.Next header reads of the solid stream
(keyed by call number; rarNextOk k false means the k-th call returned a
non-EOF error, and rarNextErrName k is the name field of the header value
that loadCbr then prints), io.Copy of a streamed rar entry, Open of a
listed rar entry, and pdf page extraction (keyed by 1-based page
number). -/
structure DecodeEnv where
  openOk : String → Bool
  openErr : String → String
  decodeOk : String → Bool
  decodeErr : String → String
  decodeImg : String → GoImg
  rarOpenOk : Bool
  rarOpenErr : String
  rarCopyOk : String → Bool
  rarCopyErr : String → String
  rarEntryOpenOk : String → Bool
  rarEntryOpenErr : String → String
  pdfExtractOk : Nat → Bool
  pdfExtractErr : Nat → String
  pdfExtractImg : Nat → GoImg
  rarNextOk : Nat → Bool
  rarNextErrName : Nat → String
  rarNextErr : Nat → String

/-- The receiver fields of EPUBImageProcessor used by the loaders (the
struct itself is declared elsewhere in the repository; the loader source
reads e.Input, e.Dry and e.SortPathMode, plus worker counts that only size
the concurrency the model sequentialises). -/
structure EPUBImageProcessor where
  Input : String
  Dry : Bool
  SortPathMode : Nat
deriving DecidableEq, Repr

/-- Model of the only-accept-jpg-png-webp filter of the loader
(isSupportedImage in the source). -/
def isSupportedImage (path : String) : Bool :=
  let ex := goToLower (filepathExt path)
  ex == ".jpg" || ex == ".jpeg" || ex == ".png" || ex == ".webp"

/-- The message written by a worker before exiting: fmt.Fprintf(os.Stderr,
"\nerror processing image %s: %s\n", key, err). -/
def processErrMsg (key err : String) : String :=
  "\nerror processing image " ++ key ++ ": " ++ err ++ "\n"

/-- Sequentialisation of the worker pool: process each job in queue order,
stopping at the first job whose worker exits the process. -/
def exceptMapM (w : α → Except Fatal β) : List α → Except Fatal (List β)
  | [] => Except.ok []
  | a :: l =>
    match w a with
    | Except.error f => Except.error f
    | Except.ok b =>
      match exceptMapM w l with
      | Except.error f => Except.error f
      | Except.ok bs => Except.ok (b :: bs)

/-- The Go map built by (for i, name := range names) m[name] = i, read
back: the last write wins, a missing key reads as none. The base argument
is the index of the first name of the remaining list. -/
def goMapIdxFrom (n : String) (base : Nat) : List String → Option Nat
  | [] => none
  | x :: xs =>
    match goMapIdxFrom n (base + 1) xs with
    | some j => some j
    | none => if x = n then some base else none

/-- Lookup of indexedNames: the index assigned to a name by the enumeration
loop over the sorted list (last write wins). -/
def goMapIdx (names : List String) (n : String) : Option Nat := goMapIdxFrom n 0 names

/-! ## The four loaders -/

/-- Open-then-decode step of a dir or cbz worker: skipped entirely in dry
mode; an open or decode failure writes the error and exits 1. -/
def openDecode (e : EPUBImageProcessor) (env : DecodeEnv) (key : String) :
    Except Fatal (Option GoImg) :=
  if !e.Dry then
    if env.openOk key then
      if env.decodeOk key then Except.ok (some (env.decodeImg key))
      else Except.error ⟨processErrMsg key (env.decodeErr key), 1⟩
    else Except.error ⟨processErrMsg key (env.openErr key), 1⟩
  else Except.ok none

/-- The task built by a dir worker: Path is the directory part of the job
path with the input prefix stripped, Name the file part. -/
def mkDirTask (input : String) (j : Nat × String) (img : Option GoImg) : tasks :=
  let pf := filepathSplit j.2
  ⟨j.1, img, if pf.1 = input then "" else stringDrop pf.1 (input.length + 1), pf.2⟩

/-- The task built by a cbz or cbr worker: filepath.Split of the cleaned
member name. -/
def mkArchiveTask (id : Nat) (name : String) (img : Option GoImg) : tasks :=
  let pf := filepathSplit (filepathClean name)
  ⟨id, img, pf.1, pf.2⟩

/-- Worker body of loadDir for one job. -/
def dirWorker (e : EPUBImageProcessor) (env : DecodeEnv) (input : String)
    (j : Nat × String) : Except Fatal tasks :=
  (openDecode e env j.2).map (mkDirTask input j)

/-- Worker body of loadCbz for one job. -/
def cbzWorker (e : EPUBImageProcessor) (env : DecodeEnv) (j : Nat × String) :
    Except Fatal tasks :=
  (openDecode e env j.2).map (mkArchiveTask j.1 j.2)

/-- Open-then-decode step of a cbr worker: a buffered job opens an
in-memory reader that cannot fail; a listing job calls the entry Open. -/
def cbrOpenDecode (e : EPUBImageProcessor) (env : DecodeEnv) (j : CbrJob) :
    Except Fatal (Option GoImg) :=
  if !e.Dry then
    match j.data with
    | CbrData.buffered _ =>
      if env.decodeOk j.name then Except.ok (some (env.decodeImg j.name))
      else Except.error ⟨processErrMsg j.name (env.decodeErr j.name), 1⟩
    | CbrData.viaOpen =>
      if env.rarEntryOpenOk j.name then
        if env.decodeOk j.name then Except.ok (some (env.decodeImg j.name))
        else Except.error ⟨processErrMsg j.name (env.decodeErr j.name), 1⟩
      else Except.error ⟨processErrMsg j.name (env.rarEntryOpenErr j.name), 1⟩
  else Except.ok none

/-- Worker body of loadCbr for one job. -/
def cbrWorker (e : EPUBImageProcessor) (env : DecodeEnv) (j : CbrJob) :
    Except Fatal tasks :=
  (cbrOpenDecode e env j).map (mkArchiveTask j.id j.name)

/-- The image paths collected by the WalkDir callback of loadDir, in walk
order: non-directory entries whose path passes isSupportedImage. -/
def dirImages (entries : List DirEntry) : List String :=
  (entries.filter (fun d => !d.isDir && isSupportedImage d.path)).map DirEntry.path

/-- The job queue of loadDir: the sorted image list enumerated with its
index. -/
def loadDirJobs (e : EPUBImageProcessor) (entries : List DirEntry) : List (Nat × String) :=
  (sortpathBy e.SortPathMode (dirImages entries)).enum

/-- Model of loadDir: walk the directory, filter and sort the images, then
run the worker pool over the enumerated jobs. The first component of a
successful result is totalImages; the second is the outcome of the decode
phase. -/
def loadDir (e : EPUBImageProcessor) (env : DecodeEnv)
    (walk : Except String (List DirEntry)) :
    Except LoadError (Nat × Except Fatal (List tasks)) :=
  match walk with
  | Except.error m => Except.error (LoadError.goError m)
  | Except.ok entries =>
    let input := filepathClean e.Input
    let totalImages := (dirImages entries).length
    if totalImages = 0 then Except.error LoadError.noImagesFound
    else Except.ok (totalImages, exceptMapM (dirWorker e env input) (loadDirJobs e entries))

/-- The zip members kept by loadCbz: non-directory members whose name
passes isSupportedImage. -/
def zipImages (files : List ZipEntry) : List ZipEntry :=
  files.filter (fun f => !f.isDir && isSupportedImage f.name)

/-- The sorted name list of loadCbz. -/
def cbzSorted (e : EPUBImageProcessor) (files : List ZipEntry) : List String :=
  sortpathBy e.SortPathMode ((zipImages files).map ZipEntry.name)

/-- The job queue of loadCbz: one job per kept member, in listing order,
carrying indexedNames[name] (0 when absent, as a Go map read). -/
def loadCbzJobs (e : EPUBImageProcessor) (files : List ZipEntry) : List (Nat × String) :=
  (zipImages files).map (fun f => ((goMapIdx (cbzSorted e files) f.name).getD 0, f.name))

/-- Model of loadCbz. -/
def loadCbz (e : EPUBImageProcessor) (env : DecodeEnv)
    (zr : Except String (List ZipEntry)) :
    Except LoadError (Nat × Except Fatal (List tasks)) :=
  match zr with
  | Except.error m => Except.error (LoadError.goError m)
  | Except.ok files =>
    let totalImages := (zipImages files).length
    if totalImages = 0 then Except.error LoadError.noImagesFound
    else Except.ok (totalImages, exceptMapM (cbzWorker e env) (loadCbzJobs e files))

/-- The wanted names of loadCbr: names of non-directory members passing
isSupportedImage, in listing order. -/
def cbrNames (files : List RarEntry) : List String :=
  (files.filter (fun f => !f.isDir && isSupportedImage f.name)).map RarEntry.name

/-- loadCbr sets isSolid when any kept member is marked solid. -/
def cbrIsSolid (files : List RarEntry) : Bool :=
  (files.filter (fun f => !f.isDir && isSupportedImage f.name)).any RarEntry.solid

/-- The sorted name list of loadCbr. -/
def cbrSorted (e : EPUBImageProcessor) (files : List RarEntry) : List String :=
  sortpathBy e.SortPathMode (cbrNames files)

/-- The jobs produced by the non-solid (or dry) branch of loadCbr: every
archive entry whose name is a key of indexedNames, with a lazy Open. -/
def cbrListJobs (files : List RarEntry) (idx : String → Option Nat) : List CbrJob :=
  files.filterMap (fun f => (idx f.name).map (fun i => ⟨i, f.name, CbrData.viaOpen⟩))

/-- The jobs produced by the solid streaming branch of loadCbr: each call
of r.Next, numbered from the given k, either fails with a non-EOF read
error — the name of the returned header and the error are written and the
process exits 1 — or yields the next archive entry; a wanted entry is
fully buffered by io.Copy (a copy failure writes the entry name and exits
1), a non-wanted entry is skipped; the call after the last entry returns
io.EOF, which ends production normally. -/
def cbrStreamJobs (env : DecodeEnv) (idx : String → Option Nat) :
    Nat → List RarEntry → Except Fatal (List CbrJob)
  | k, [] =>
    if env.rarNextOk k then Except.ok []
    else Except.error ⟨processErrMsg (env.rarNextErrName k) (env.rarNextErr k), 1⟩
  | k, f :: rest =>
    if env.rarNextOk k then
      match idx f.name with
      | some i =>
        if env.rarCopyOk f.name then
          match cbrStreamJobs env idx (k + 1) rest with
          | Except.error x => Except.error x
          | Except.ok js => Except.ok (⟨i, f.name, CbrData.buffered f.content⟩ :: js)
        else Except.error ⟨processErrMsg f.name (env.rarCopyErr f.name), 1⟩
      | none => cbrStreamJobs env idx (k + 1) rest
    else Except.error ⟨processErrMsg (env.rarNextErrName k) (env.rarNextErr k), 1⟩

/-- The job production of loadCbr: the solid streaming branch when some
kept member is solid and the run is not dry (a failure to open the archive
reader writes e.Input and exits 1), the listing branch otherwise. -/
def cbrJobs (e : EPUBImageProcessor) (env : DecodeEnv) (files : List RarEntry) :
    Except Fatal (List CbrJob) :=
  let idx := goMapIdx (cbrSorted e files)
  if cbrIsSolid files && !e.Dry then
    if env.rarOpenOk then cbrStreamJobs env idx 0 files
    else Except.error ⟨processErrMsg e.Input env.rarOpenErr, 1⟩
  else Except.ok (cbrListJobs files idx)

/-- Model of loadCbr. -/
def loadCbr (e : EPUBImageProcessor) (env : DecodeEnv)
    (lres : Except String (List RarEntry)) :
    Except LoadError (Nat × Except Fatal (List tasks)) :=
  match lres with
  | Except.error m => Except.error (LoadError.goError m)
  | Except.ok files =>
    let totalImages := (cbrNames files).length
    if totalImages = 0 then Except.error LoadError.noImagesFound
    else Except.ok (totalImages,
      match cbrJobs e env files with
      | Except.error f => Except.error f
      | Except.ok js => exceptMapM (cbrWorker e env) js)

/-- Number of decimal digits of totalImages: len(fmt.Sprintf("%d", n)). -/
def goDigits (n : Nat) : Nat := (toString n).length

/-- Model of the fmt %0Wd verb on a natural number: left-pad the decimal
representation with zeros up to the width. -/
def goZeroPad (width n : Nat) : String :=
  let s := toString n
  if s.length < width then String.mk (List.replicate (width - s.length) '0') ++ s else s

/-- The synthetic page name of loadPdf: fmt.Sprintf("page %0Wd", page)
where W is the digit length of the total page count. -/
def pdfPageName (total page : Nat) : String := "page " ++ goZeroPad (goDigits total) page

/-- Extraction step of the pdf loop for 0-based page i: skipped in dry
mode; on failure the error alone is written (fmt.Fprintln) and the process
exits 1. -/
def pdfExtract (e : EPUBImageProcessor) (env : DecodeEnv) (i : Nat) :
    Except Fatal (Option GoImg) :=
  if !e.Dry then
    if env.pdfExtractOk (i + 1) then Except.ok (some (env.pdfExtractImg (i + 1)))
    else Except.error ⟨env.pdfExtractErr (i + 1) ++ "\n", 1⟩
  else Except.ok none

/-- One iteration of the sequential pdf producer loop: extract page i+1 and
emit the task for 0-based index i with an empty Path. -/
def pdfStep (e : EPUBImageProcessor) (env : DecodeEnv) (total i : Nat) :
    Except Fatal tasks :=
  (pdfExtract e env i).map (fun img => ⟨i, img, "", pdfPageName total (i + 1)⟩)

/-- Model of loadPdf: pdfread.Load returning nil is modelled by a none page
count; otherwise the pages are produced sequentially in index order by a
single goroutine, with no worker pool. -/
def loadPdf (e : EPUBImageProcessor) (env : DecodeEnv) (pdfDoc : Option Nat) :
    Except LoadError (Nat × Except Fatal (List tasks)) :=
  match pdfDoc with
  | none => Except.error (LoadError.goError "can't read pdf")
  | some n => Except.ok (n, exceptMapM (pdfStep e env n) (List.range n))

/-! ## Models from main.go -/

/-- Model of the limitmb validation in main: a LimitMb strictly between 0
and 20 is rejected with a message and exit code 1. -/
def validateLimitMb (v : Int) : Except (String × Nat) Unit :=
  if v > 0 ∧ v < 20 then Except.error ("LimitMb should be 0 or >= 20", 1) else Except.ok ()

/-- The limit check runs before the conversion pipeline: the pipeline
continuation is only reached when validation passes. -/
def mainWithLimit (v : Int) (pipeline : Unit → Except (String × Nat) Unit) :
    Except (String × Nat) Unit :=
  match validateLimitMb v with
  | Except.error x => Except.error x
  | Except.ok _ => pipeline ()

/-- Model of defaultOutput in main: the cleaned input with ".epub" appended
for a directory input; for a file input its extension is stripped first. -/
def defaultOutput (input : String) (inputIsDir : Bool) : String :=
  let inputBase := filepathClean input
  if inputIsDir then inputBase ++ ".epub"
  else
    let ex := filepathExt inputBase
    (stringDropRight inputBase ex.length) ++ ".epub"

/-- Model of the output-path resolution in main: an empty output defaults
to defaultOutput; an output whose extension is not ".epub" must stat as an
existing directory (statOutput: none when os.Stat fails, some isDir
otherwise) and receives the base of defaultOutput joined onto it. -/
def resolveOutput (input output : String) (inputIsDir : Bool)
    (statOutput : Option Bool) : Except (String × Nat) String :=
  let dflt := defaultOutput input inputIsDir
  let out := if output = "" then dflt else output
  if filepathExt out ≠ ".epub" then
    match statOutput with
    | none => Except.error ("stat failed", 1)
    | some isDir =>
      if !isDir then Except.error ("output must be an existing dir or end with .epub", 1)
      else Except.ok (filepathJoin out (filepathBase dflt))
  else Except.ok out

/-! ## Infrastructure lemmas -/

/-- Inversion of Except.map on a successful result. -/
theorem exceptMap_ok {α β : Type} {f : α → β} {x : Except Fatal α} {b : β} :
    x.map f = Except.ok b ↔ ∃ a, x = Except.ok a ∧ b = f a := by
  cases x <;> simp [Except.map, eq_comm]

/-- A worker that always succeeds maps the whole queue. -/
theorem exceptMapM_total {α β : Type} {w : α → Except Fatal β} {g : α → β}
    (hw : ∀ a, w a = Except.ok (g a)) : ∀ l, exceptMapM w l = Except.ok (l.map g) := by
  intro l
  induction l with
  | nil => rfl
  | cons a l ih => simp [exceptMapM, hw a, ih]

/-- A successful pool run preserves any per-job observation of the ok
results, in queue order. -/
theorem exceptMapM_ok_map {α β γ : Type} {w : α → Except Fatal β} {f : β → γ} {g : α → γ}
    (hw : ∀ a b, w a = Except.ok b → f b = g a) :
    ∀ {l : List α} {bs : List β}, exceptMapM w l = Except.ok bs → bs.map f = l.map g := by
  intro l
  induction l with
  | nil =>
    intro bs h
    simp only [exceptMapM] at h
    injection h with h
    simp [← h]
  | cons a l ih =>
    intro bs h
    cases hwa : w a with
    | error x => simp [exceptMapM, hwa] at h
    | ok b =>
      cases hrec : exceptMapM w l with
      | error x => simp [exceptMapM, hwa, hrec] at h
      | ok bs2 =>
        simp only [exceptMapM, hwa, hrec] at h
        injection h with h
        subst h
        simp [hw a b hwa, ih hrec]

/-- If some job in the queue fails, the run fails with the message and code
of a failing job. -/
theorem exceptMapM_error_exists {α β : Type} {w : α → Except Fatal β} :
    ∀ {l : List α}, (∃ a ∈ l, ∃ x, w a = Except.error x) →
      ∃ x, exceptMapM w l = Except.error x ∧ ∃ a ∈ l, w a = Except.error x := by
  intro l
  induction l with
  | nil => rintro ⟨a, ha, _⟩; cases ha
  | cons a l ih =>
    rintro ⟨b, hb, x, hbx⟩
    cases hwa : w a with
    | error y => exact ⟨y, by simp [exceptMapM, hwa], a, List.mem_cons_self a l, hwa⟩
    | ok c =>
      have hbl : b ∈ l := by
        rcases List.mem_cons.mp hb with h | h
        · subst h; rw [hwa] at hbx; cases hbx
        · exact h
      obtain ⟨y, hy, a2, ha2, hwa2⟩ := ih ⟨b, hbl, x, hbx⟩
      exact ⟨y, by simp [exceptMapM, hwa, hy], a2, List.mem_cons_of_mem _ ha2, hwa2⟩

/-- A name absent from the list is absent from the index map. -/
theorem goMapIdxFrom_eq_none {n : String} :
    ∀ {l : List String} {b : Nat}, n ∉ l → goMapIdxFrom n b l = none := by
  intro l
  induction l with
  | nil => intro b _; rfl
  | cons x xs ih =>
    intro b h
    have hx : ¬(x = n) := fun he => h (by simp [he])
    have hxs : n ∉ xs := fun hm => h (List.mem_cons_of_mem _ hm)
    simp [goMapIdxFrom, ih hxs, hx]

/-- A name present in the list is present in the index map. -/
theorem goMapIdxFrom_mem {n : String} :
    ∀ {l : List String}, n ∈ l → ∀ b, ∃ j, goMapIdxFrom n b l = some j := by
  intro l
  induction l with
  | nil => intro h; cases h
  | cons x xs ih =>
    intro h b
    by_cases hm : n ∈ xs
    · obtain ⟨j, hj⟩ := ih hm (b + 1)
      exact ⟨j, by simp [goMapIdxFrom, hj]⟩
    · have hx : x = n := by
        rcases List.mem_cons.mp h with h1 | h1
        · exact h1.symm
        · exact absurd h1 hm
      exact ⟨b, by simp [goMapIdxFrom, goMapIdxFrom_eq_none hm, hx]⟩

/-- In a duplicate-free list the index map sends the element at position i
to i (shifted by the base). -/
theorem goMapIdxFrom_self :
    ∀ {l : List String}, l.Nodup → ∀ (i : Nat) (h : i < l.length) (b : Nat),
      goMapIdxFrom (l.get ⟨i, h⟩) b l = some (b + i) := by
  intro l
  induction l with
  | nil => intro _ i h; simp at h
  | cons x xs ih =>
    intro hnd i h b
    cases i with
    | zero =>
      have hx : x ∉ xs := (List.nodup_cons.mp hnd).1
      simp [goMapIdxFrom, goMapIdxFrom_eq_none hx]
    | succ i =>
      have hrec := ih (List.nodup_cons.mp hnd).2 i (by simpa using h) (b + 1)
      rw [List.get_cons_succ]
      simp only [goMapIdxFrom, hrec]
      have : b + 1 + i = b + (i + 1) := by omega
      rw [this]

/-- goMapIdx of an element of a duplicate-free list is its position. -/
theorem goMapIdx_self {l : List String} (hnd : l.Nodup) (i : Nat) (h : i < l.length) :
    goMapIdx l (l.get ⟨i, h⟩) = some i := by
  simpa using goMapIdxFrom_self hnd i h 0

/-- Reading the index map back over the whole duplicate-free list yields
exactly the positions 0, 1, .... -/
theorem map_goMapIdx_self {l : List String} (hnd : l.Nodup) :
    l.map (fun n => (goMapIdx l n).getD 0) = List.range l.length := by
  apply List.ext_getElem (by simp)
  intro i h1 h2
  have hl : i < l.length := by simpa using h1
  simp only [List.getElem_map, List.getElem_range]
  have hg := goMapIdx_self hnd i hl
  simp only [List.get_eq_getElem] at hg
  rw [hg]
  rfl

/-- For duplicate-free names, mapping each name to its index in a sorted
permutation of the names is a permutation of the positions 0 to N-1. -/
theorem idsPerm {names sorted : List String} (hnd : names.Nodup)
    (hp : List.Perm sorted names) :
    List.Perm (names.map (fun n => (goMapIdx sorted n).getD 0))
      (List.range names.length) := by
  have hnds : sorted.Nodup := hp.nodup_iff.mpr hnd
  have h1 := (hp.map (fun n => (goMapIdx sorted n).getD 0)).symm
  have h2 : sorted.map (fun n => (goMapIdx sorted n).getD 0) = List.range names.length := by
    rw [map_goMapIdx_self hnds, hp.length_eq]
  exact h2 ▸ h1

/-- filterMap by a partial function that is defined exactly on the elements
kept by a boolean filter. -/
theorem filterMap_eq_filter_map {α β : Type} {p : α → Option β} {q : α → Bool} {g : α → β} :
    ∀ {l : List α}, (∀ a ∈ l, p a = if q a then some (g a) else none) →
      l.filterMap p = (l.filter q).map g := by
  intro l
  induction l with
  | nil => intro _; rfl
  | cons a l ih =>
    intro h
    have ha := h a (List.mem_cons_self a l)
    have hl := fun b hb => h b (List.mem_cons_of_mem a hb)
    by_cases hq : q a = true
    · rw [List.filterMap_cons, ha, if_pos hq, List.filter_cons, if_pos hq]
      simp [ih hl]
    · have hqf : q a = false := by simpa using hq
      rw [List.filterMap_cons, ha, if_neg (by simp [hqf]), List.filter_cons, if_neg (by simp [hqf])]
      exact ih hl

/-! ## Worker-level lemmas -/

/-- The (Id, Path, Name) observation of a task. -/
def taskTriple (t : tasks) : Nat × String × String := (t.Id, t.Path, t.Name)

/-- The triple of a dir task does not depend on the decoded image. -/
theorem mkDirTask_triple (input : String) (j : Nat × String) (img : Option GoImg) :
    taskTriple (mkDirTask input j img) = taskTriple (mkDirTask input j none) := rfl

/-- The triple of an archive task does not depend on the decoded image. -/
theorem mkArchiveTask_triple (id : Nat) (name : String) (img : Option GoImg) :
    taskTriple (mkArchiveTask id name img) = taskTriple (mkArchiveTask id name none) := rfl

/-- Dry mode skips the open and decode calls of a dir or cbz worker. -/
theorem openDecode_dry {e : EPUBImageProcessor} (he : e.Dry = true) (env : DecodeEnv)
    (key : String) : openDecode e env key = Except.ok none := by
  simp [openDecode, he]

/-- Dry mode skips the open and decode calls of a cbr worker. -/
theorem cbrOpenDecode_dry {e : EPUBImageProcessor} (he : e.Dry = true) (env : DecodeEnv)
    (j : CbrJob) : cbrOpenDecode e env j = Except.ok none := by
  simp [cbrOpenDecode, he]

/-- Dry mode skips the pdf extraction call. -/
theorem pdfExtract_dry {e : EPUBImageProcessor} (he : e.Dry = true) (env : DecodeEnv)
    (i : Nat) : pdfExtract e env i = Except.ok none := by
  simp [pdfExtract, he]

/-- A successful dir worker emits the task of its job, up to the image. -/
theorem dirWorker_ok {e : EPUBImageProcessor} {env : DecodeEnv} {input : String}
    {j : Nat × String} {t : tasks} (h : dirWorker e env input j = Except.ok t) :
    taskTriple t = taskTriple (mkDirTask input j none) := by
  obtain ⟨a, _, ht⟩ := exceptMap_ok.mp h
  rw [ht]
  exact mkDirTask_triple input j a

/-- A successful cbz worker emits the task of its job, up to the image. -/
theorem cbzWorker_ok {e : EPUBImageProcessor} {env : DecodeEnv}
    {j : Nat × String} {t : tasks} (h : cbzWorker e env j = Except.ok t) :
    taskTriple t = taskTriple (mkArchiveTask j.1 j.2 none) := by
  obtain ⟨a, _, ht⟩ := exceptMap_ok.mp h
  rw [ht]
  exact mkArchiveTask_triple j.1 j.2 a

/-- A successful cbr worker emits the task of its job, up to the image. -/
theorem cbrWorker_ok {e : EPUBImageProcessor} {env : DecodeEnv}
    {j : CbrJob} {t : tasks} (h : cbrWorker e env j = Except.ok t) :
    taskTriple t = taskTriple (mkArchiveTask j.id j.name none) := by
  obtain ⟨a, _, ht⟩ := exceptMap_ok.mp h
  rw [ht]
  exact mkArchiveTask_triple j.id j.name a

/-- A successful pdf step emits the task of its page index, up to the
image. -/
theorem pdfStep_ok {e : EPUBImageProcessor} {env : DecodeEnv} {total i : Nat} {t : tasks}
    (h : pdfStep e env total i = Except.ok t) :
    t.Id = i ∧ t.Path = "" ∧ t.Name = pdfPageName total (i + 1) := by
  obtain ⟨a, _, ht⟩ := exceptMap_ok.mp h
  rw [ht]
  exact ⟨rfl, rfl, rfl⟩

/-- A successful stream pass produces exactly one buffered job per wanted
entry, in stream order, each with its own bytes. -/
theorem cbrStreamJobs_ok_eq {env : DecodeEnv} {idx : String → Option Nat} :
    ∀ {files : List RarEntry} {k : Nat} {js : List CbrJob},
      cbrStreamJobs env idx k files = Except.ok js →
      js = files.filterMap (fun f =>
        (idx f.name).map (fun i => ⟨i, f.name, CbrData.buffered f.content⟩)) := by
  intro files
  induction files with
  | nil =>
    intro k js h
    simp only [cbrStreamJobs] at h
    by_cases hnx : env.rarNextOk k = true
    · rw [if_pos hnx] at h
      injection h with h
      simp [← h]
    · rw [if_neg hnx] at h
      cases h
  | cons f rest ih =>
    intro k js h
    simp only [cbrStreamJobs] at h
    by_cases hnx : env.rarNextOk k = true
    · rw [if_pos hnx] at h
      cases hidx : idx f.name with
      | none =>
        simp only [hidx] at h
        simp [List.filterMap_cons, hidx, ih h]
      | some i =>
        simp only [hidx] at h
        by_cases hc : env.rarCopyOk f.name = true
        · rw [if_pos hc] at h
          cases hrec : cbrStreamJobs env idx (k + 1) rest with
          | error x => rw [hrec] at h; cases h
          | ok js2 =>
            rw [hrec] at h
            injection h with h
            subst h
            simp [List.filterMap_cons, hidx, ih hrec]
        · rw [if_neg hc] at h; cases h
    · rw [if_neg hnx] at h
      cases h

/-- A streamed job list carries the same (id, name) sequence as the listing
branch would produce. -/
theorem cbrStreamJobs_pairs {env : DecodeEnv} {idx : String → Option Nat}
    {files : List RarEntry} {k : Nat} {js : List CbrJob}
    (h : cbrStreamJobs env idx k files = Except.ok js) :
    js.map (fun j => (j.id, j.name))
      = (cbrListJobs files idx).map (fun j => (j.id, j.name)) := by
  rw [cbrStreamJobs_ok_eq h]
  unfold cbrListJobs
  rw [List.map_filterMap, List.map_filterMap]
  congr 1
  funext f
  cases idx f.name <;> rfl

/-- With every header read successful and every wanted copy successful,
the solid branch succeeds and buffers exactly the wanted entries, in
stream order, each with its own bytes. -/
theorem cbrStreamJobs_eq {env : DecodeEnv} {idx : String → Option Nat}
    (hnext : ∀ k, env.rarNextOk k = true) :
    ∀ {files : List RarEntry} (k : Nat), (∀ f ∈ files, env.rarCopyOk f.name = true) →
      cbrStreamJobs env idx k files =
        Except.ok (files.filterMap (fun f =>
          (idx f.name).map (fun i => ⟨i, f.name, CbrData.buffered f.content⟩))) := by
  intro files
  induction files with
  | nil => intro k _; simp [cbrStreamJobs, hnext k]
  | cons f rest ih =>
    intro k h
    have hf := h f (List.mem_cons_self f rest)
    have hrest := ih (k + 1) (fun g hg => h g (List.mem_cons_of_mem f hg))
    cases hidx : idx f.name with
    | none => simp [cbrStreamJobs, hnext k, hidx, hrest, List.filterMap_cons]
    | some i => simp [cbrStreamJobs, hnext k, hidx, hf, hrest, List.filterMap_cons]

/-- Every fatal outcome of the stream pass carries exit code 1. -/
theorem cbrStreamJobs_error_code {env : DecodeEnv} {idx : String → Option Nat} :
    ∀ {files : List RarEntry} {k : Nat} {f : Fatal},
      cbrStreamJobs env idx k files = Except.error f → f.code = 1 := by
  intro files
  induction files with
  | nil =>
    intro k f h
    simp only [cbrStreamJobs] at h
    by_cases hnx : env.rarNextOk k = true
    · rw [if_pos hnx] at h; cases h
    · rw [if_neg hnx] at h
      injection h with h
      rw [← h]
  | cons g rest ih =>
    intro k f h
    simp only [cbrStreamJobs] at h
    by_cases hnx : env.rarNextOk k = true
    · rw [if_pos hnx] at h
      cases hidx : idx g.name with
      | none =>
        simp only [hidx] at h
        exact ih h
      | some i =>
        simp only [hidx] at h
        by_cases hc : env.rarCopyOk g.name = true
        · rw [if_pos hc] at h
          cases hrec : cbrStreamJobs env idx (k + 1) rest with
          | error x =>
            rw [hrec] at h
            injection h with h
            rw [← h]
            exact ih hrec
          | ok js2 => rw [hrec] at h; cases h
        · rw [if_neg hc] at h
          injection h with h
          rw [← h]
    · rw [if_neg hnx] at h
      injection h with h
      rw [← h]

/-- A successful stream pass implies every header read along it, including
the final io.EOF read, succeeded. -/
theorem cbrStreamJobs_ok_next {env : DecodeEnv} {idx : String → Option Nat} :
    ∀ {files : List RarEntry} {k : Nat} {js : List CbrJob},
      cbrStreamJobs env idx k files = Except.ok js →
      ∀ k2, k ≤ k2 → k2 ≤ k + files.length → env.rarNextOk k2 = true := by
  intro files
  induction files with
  | nil =>
    intro k js h k2 hk1 hk2
    have hkk : k2 = k := by simpa using Nat.le_antisymm (by simpa using hk2) hk1
    subst hkk
    simp only [cbrStreamJobs] at h
    by_cases hnx : env.rarNextOk k2 = true
    · exact hnx
    · rw [if_neg hnx] at h; cases h
  | cons f rest ih =>
    intro k js h k2 hk1 hk2
    simp only [cbrStreamJobs] at h
    by_cases hnx : env.rarNextOk k = true
    · rw [if_pos hnx] at h
      by_cases hkk : k2 = k
      · subst hkk; exact hnx
      · have hk1s : k + 1 ≤ k2 := by omega
        have hk2s : k2 ≤ k + 1 + rest.length := by
          simp only [List.length_cons] at hk2
          omega
        cases hidx : idx f.name with
        | none =>
          simp only [hidx] at h
          exact ih h k2 hk1s hk2s
        | some i =>
          simp only [hidx] at h
          by_cases hc : env.rarCopyOk f.name = true
          · rw [if_pos hc] at h
            cases hrec : cbrStreamJobs env idx (k + 1) rest with
            | error x => rw [hrec] at h; cases h
            | ok js2 => exact ih hrec k2 hk1s hk2s
          · rw [if_neg hc] at h; cases h
    · rw [if_neg hnx] at h
      cases h

/-! ## Loader-level lemmas -/

/-- Inversion of a successful loadDir. -/
theorem loadDir_ok_inv {e : EPUBImageProcessor} {env : DecodeEnv} {entries : List DirEntry}
    {n : Nat} {r : Except Fatal (List tasks)}
    (h : loadDir e env (Except.ok entries) = Except.ok (n, r)) :
    n = (dirImages entries).length ∧ (dirImages entries).length ≠ 0 ∧
      r = exceptMapM (dirWorker e env (filepathClean e.Input)) (loadDirJobs e entries) := by
  simp only [loadDir] at h
  split at h
  · cases h
  · rename_i h0
    injection h with h2
    rw [Prod.mk.injEq] at h2
    exact ⟨h2.1.symm, h0, h2.2.symm⟩

/-- Inversion of a successful loadCbz. -/
theorem loadCbz_ok_inv {e : EPUBImageProcessor} {env : DecodeEnv} {zfiles : List ZipEntry}
    {n : Nat} {r : Except Fatal (List tasks)}
    (h : loadCbz e env (Except.ok zfiles) = Except.ok (n, r)) :
    n = (zipImages zfiles).length ∧ (zipImages zfiles).length ≠ 0 ∧
      r = exceptMapM (cbzWorker e env) (loadCbzJobs e zfiles) := by
  simp only [loadCbz] at h
  split at h
  · cases h
  · rename_i h0
    injection h with h2
    rw [Prod.mk.injEq] at h2
    exact ⟨h2.1.symm, h0, h2.2.symm⟩

/-- Inversion of a successful loadCbr. -/
theorem loadCbr_ok_inv {e : EPUBImageProcessor} {env : DecodeEnv} {rfiles : List RarEntry}
    {n : Nat} {r : Except Fatal (List tasks)}
    (h : loadCbr e env (Except.ok rfiles) = Except.ok (n, r)) :
    n = (cbrNames rfiles).length ∧ (cbrNames rfiles).length ≠ 0 ∧
      r = (match cbrJobs e env rfiles with
           | Except.error f => Except.error f
           | Except.ok js => exceptMapM (cbrWorker e env) js) := by
  simp only [loadCbr] at h
  split at h
  · cases h
  · rename_i h0
    injection h with h2
    rw [Prod.mk.injEq] at h2
    exact ⟨h2.1.symm, h0, h2.2.symm⟩

/-- Inversion of a successful loadPdf. -/
theorem loadPdf_ok_inv {e : EPUBImageProcessor} {env : DecodeEnv} {pdfDoc : Option Nat}
    {n : Nat} {r : Except Fatal (List tasks)}
    (h : loadPdf e env pdfDoc = Except.ok (n, r)) :
    pdfDoc = some n ∧ r = exceptMapM (pdfStep e env n) (List.range n) := by
  cases pdfDoc with
  | none => cases h
  | some m =>
    simp only [loadPdf] at h
    injection h with h2
    rw [Prod.mk.injEq] at h2
    obtain ⟨h3, h4⟩ := h2
    subst h3
    exact ⟨rfl, h4.symm⟩

/-- A dry dir worker always emits the imageless task of its job. -/
theorem dirWorker_dry {e : EPUBImageProcessor} (he : e.Dry = true) (env : DecodeEnv)
    (input : String) (j : Nat × String) :
    dirWorker e env input j = Except.ok (mkDirTask input j none) := by
  simp [dirWorker, openDecode_dry he, Except.map]

/-- A dry cbz worker always emits the imageless task of its job. -/
theorem cbzWorker_dry {e : EPUBImageProcessor} (he : e.Dry = true) (env : DecodeEnv)
    (j : Nat × String) :
    cbzWorker e env j = Except.ok (mkArchiveTask j.1 j.2 none) := by
  simp [cbzWorker, openDecode_dry he, Except.map]

/-- A dry cbr worker always emits the imageless task of its job. -/
theorem cbrWorker_dry {e : EPUBImageProcessor} (he : e.Dry = true) (env : DecodeEnv)
    (j : CbrJob) :
    cbrWorker e env j = Except.ok (mkArchiveTask j.id j.name none) := by
  simp [cbrWorker, cbrOpenDecode_dry he, Except.map]

/-- A dry pdf step always emits the imageless task of its page. -/
theorem pdfStep_dry {e : EPUBImageProcessor} (he : e.Dry = true) (env : DecodeEnv)
    (total i : Nat) :
    pdfStep e env total i = Except.ok ⟨i, none, "", pdfPageName total (i + 1)⟩ := by
  simp [pdfStep, pdfExtract_dry he, Except.map]

/-- In dry mode the cbr job production always takes the listing branch. -/
theorem cbrJobs_dry {e : EPUBImageProcessor} (he : e.Dry = true) (env : DecodeEnv)
    (files : List RarEntry) :
    cbrJobs e env files = Except.ok (cbrListJobs files (goMapIdx (cbrSorted e files))) := by
  simp [cbrJobs, he]

/-- The full result of a dry loadDir run. -/
theorem loadDir_dry {e : EPUBImageProcessor} (he : e.Dry = true) (env : DecodeEnv)
    (entries : List DirEntry) :
    loadDir e env (Except.ok entries) =
      if (dirImages entries).length = 0 then Except.error LoadError.noImagesFound
      else Except.ok ((dirImages entries).length,
        Except.ok ((loadDirJobs e entries).map
          (fun j => mkDirTask (filepathClean e.Input) j none))) := by
  simp only [loadDir]
  split
  · rfl
  · rw [exceptMapM_total (fun j => dirWorker_dry he env (filepathClean e.Input) j)]

/-- The full result of a dry loadCbz run. -/
theorem loadCbz_dry {e : EPUBImageProcessor} (he : e.Dry = true) (env : DecodeEnv)
    (zfiles : List ZipEntry) :
    loadCbz e env (Except.ok zfiles) =
      if (zipImages zfiles).length = 0 then Except.error LoadError.noImagesFound
      else Except.ok ((zipImages zfiles).length,
        Except.ok ((loadCbzJobs e zfiles).map
          (fun j => mkArchiveTask j.1 j.2 none))) := by
  simp only [loadCbz]
  split
  · rfl
  · rw [exceptMapM_total (fun j => cbzWorker_dry he env j)]

/-- The full result of a dry loadCbr run. -/
theorem loadCbr_dry {e : EPUBImageProcessor} (he : e.Dry = true) (env : DecodeEnv)
    (rfiles : List RarEntry) :
    loadCbr e env (Except.ok rfiles) =
      if (cbrNames rfiles).length = 0 then Except.error LoadError.noImagesFound
      else Except.ok ((cbrNames rfiles).length,
        Except.ok ((cbrListJobs rfiles (goMapIdx (cbrSorted e rfiles))).map
          (fun j => mkArchiveTask j.id j.name none))) := by
  simp only [loadCbr]
  split
  · rfl
  · simp only [cbrJobs_dry he]
    rw [exceptMapM_total (fun j => cbrWorker_dry he env j)]

/-- The full result of a dry loadPdf run. -/
theorem loadPdf_dry {e : EPUBImageProcessor} (he : e.Dry = true) (env : DecodeEnv)
    (n : Nat) :
    loadPdf e env (some n) =
      Except.ok (n, Except.ok ((List.range n).map
        (fun i => ⟨i, none, "", pdfPageName n (i + 1)⟩))) := by
  simp only [loadPdf]
  rw [exceptMapM_total (fun i => pdfStep_dry he env n i)]

/-! ## Identifier-level lemmas for the job queues -/

/-- A successful dir worker keeps the id of its job. -/
theorem dirWorker_Id {e : EPUBImageProcessor} {env : DecodeEnv} {input : String}
    {j : Nat × String} {t : tasks} (h : dirWorker e env input j = Except.ok t) :
    t.Id = j.1 := by
  obtain ⟨a, _, ht⟩ := exceptMap_ok.mp h
  rw [ht]
  rfl

/-- A successful cbz worker keeps the id of its job. -/
theorem cbzWorker_Id {e : EPUBImageProcessor} {env : DecodeEnv}
    {j : Nat × String} {t : tasks} (h : cbzWorker e env j = Except.ok t) :
    t.Id = j.1 := by
  obtain ⟨a, _, ht⟩ := exceptMap_ok.mp h
  rw [ht]
  rfl

/-- A successful cbr worker keeps the id of its job. -/
theorem cbrWorker_Id {e : EPUBImageProcessor} {env : DecodeEnv}
    {j : CbrJob} {t : tasks} (h : cbrWorker e env j = Except.ok t) :
    t.Id = j.id := by
  obtain ⟨a, _, ht⟩ := exceptMap_ok.mp h
  rw [ht]
  rfl

/-- Every job produced by loadCbr carries the same (id, name) sequence as
the listing branch, whichever branch ran. -/
theorem cbrJobs_pairs {e : EPUBImageProcessor} {env : DecodeEnv} {files : List RarEntry}
    {js : List CbrJob} (h : cbrJobs e env files = Except.ok js) :
    js.map (fun j => (j.id, j.name))
      = (cbrListJobs files (goMapIdx (cbrSorted e files))).map (fun j => (j.id, j.name)) := by
  unfold cbrJobs at h
  split at h
  · split at h
    · exact cbrStreamJobs_pairs h
    · cases h
  · injection h with h
    rw [h]

/-- With duplicate-free member names, the listing branch enqueues exactly
one job per kept member, in listing order, carrying the index of its
name. -/
theorem cbrListJobs_eq {e : EPUBImageProcessor} {files : List RarEntry}
    (hnd : (files.map RarEntry.name).Nodup) :
    cbrListJobs files (goMapIdx (cbrSorted e files))
      = (files.filter (fun f => !f.isDir && isSupportedImage f.name)).map
          (fun f => ⟨(goMapIdx (cbrSorted e files) f.name).getD 0, f.name, CbrData.viaOpen⟩) := by
  apply filterMap_eq_filter_map
  intro f hf
  by_cases hq : (!f.isDir && isSupportedImage f.name) = true
  · rw [if_pos hq]
    have hmem : f.name ∈ cbrSorted e files := by
      unfold cbrSorted
      rw [List.Perm.mem_iff (sortpathBy_perm _ _)]
      exact List.mem_map_of_mem RarEntry.name (List.mem_filter.mpr ⟨hf, hq⟩)
    obtain ⟨j, hj⟩ := goMapIdxFrom_mem hmem 0
    rw [show goMapIdx (cbrSorted e files) f.name = some j from hj]
    simp
  · rw [if_neg hq]
    have hnone : f.name ∉ cbrSorted e files := by
      intro hmem
      unfold cbrSorted at hmem
      rw [List.Perm.mem_iff (sortpathBy_perm _ _)] at hmem
      obtain ⟨g, hg, hgname⟩ := List.mem_map.mp hmem
      have hgf : g = f :=
        List.inj_on_of_nodup_map hnd (List.mem_of_mem_filter hg) hf hgname
      have hgq := (List.mem_filter.mp hg).2
      rw [hgf] at hgq
      exact hq hgq
    rw [show goMapIdx (cbrSorted e files) f.name = none from goMapIdxFrom_eq_none hnone]
    rfl

/-- Every job on the non-solid queue reaches its bytes through the lazy
entry Open. -/
theorem cbrListJobs_viaOpen {files : List RarEntry} {idx : String → Option Nat}
    {j : CbrJob} (h : j ∈ cbrListJobs files idx) : j.data = CbrData.viaOpen := by
  obtain ⟨f, _, hj⟩ := List.mem_filterMap.mp h
  cases hidx : idx f.name with
  | none => rw [hidx] at hj; cases hj
  | some i =>
    rw [hidx] at hj
    injection hj with hj
    rw [← hj]

/-- The ids of the loadCbr queue are a permutation of 0 to N-1 when the
archive member names are duplicate-free. -/
theorem cbrJobs_ids_perm {e : EPUBImageProcessor} {env : DecodeEnv} {files : List RarEntry}
    {js : List CbrJob} (hnd : (files.map RarEntry.name).Nodup)
    (h : cbrJobs e env files = Except.ok js) :
    List.Perm (js.map CbrJob.id) (List.range (cbrNames files).length) := by
  have hnames : (cbrNames files).Nodup := by
    have hsub : List.Sublist (cbrNames files) (files.map RarEntry.name) :=
      (List.filter_sublist files).map RarEntry.name
    exact hnd.sublist hsub
  have hpairs := cbrJobs_pairs h
  have hids : js.map CbrJob.id
      = (cbrListJobs files (goMapIdx (cbrSorted e files))).map CbrJob.id := by
    have h1 := congrArg (List.map Prod.fst) hpairs
    simpa [List.map_map, Function.comp] using h1
  rw [hids, cbrListJobs_eq hnd, List.map_map]
  have hcomp :
      ((fun j : CbrJob => j.id) ∘ fun f : RarEntry =>
        (⟨(goMapIdx (cbrSorted e files) f.name).getD 0, f.name, CbrData.viaOpen⟩ : CbrJob))
      = fun f : RarEntry => (goMapIdx (cbrSorted e files) f.name).getD 0 := rfl
  rw [hcomp]
  have hmm : (files.filter (fun f => !f.isDir && isSupportedImage f.name)).map
        (fun f : RarEntry => (goMapIdx (cbrSorted e files) f.name).getD 0)
      = (cbrNames files).map (fun nm => (goMapIdx (cbrSorted e files) nm).getD 0) := by
    rw [cbrNames, List.map_map]
    rfl
  rw [hmm]
  exact idsPerm hnames (sortpathBy_perm _ _)

/-! ## Error-path lemmas -/

/-- The worker error message contains the offending path or name. -/
theorem isInfix_processErrMsg (key err : String) :
    List.IsInfix key.data (processErrMsg key err).data := by
  refine ⟨("\nerror processing image " : String).data, (": " ++ err ++ "\n" : String).data, ?_⟩
  unfold processErrMsg
  simp [String.data_append, List.append_assoc]

/-- Error inversion of openDecode in a non-dry run: the exit code is 1, the
open or the decode oracle failed, and the message names the key. -/
theorem openDecode_error_inv {e : EPUBImageProcessor} {env : DecodeEnv} {key : String}
    {f : Fatal} (hdry : e.Dry = false) (h : openDecode e env key = Except.error f) :
    f.code = 1 ∧ (env.openOk key = false ∨ env.decodeOk key = false)
      ∧ List.IsInfix key.data f.msg.data := by
  unfold openDecode at h
  rw [hdry] at h
  by_cases ho : env.openOk key = true
  · by_cases hd : env.decodeOk key = true
    · simp [ho, hd] at h
    · have hdf : env.decodeOk key = false := by simpa using hd
      simp only [ho, hdf, Bool.not_false, if_true, if_false, Bool.false_eq_true] at h
      injection h with h
      rw [← h]
      exact ⟨rfl, Or.inr hdf, isInfix_processErrMsg key (env.decodeErr key)⟩
  · have hof : env.openOk key = false := by simpa using ho
    simp only [hof, Bool.not_false, if_true, if_false, Bool.false_eq_true] at h
    injection h with h
    rw [← h]
    exact ⟨rfl, Or.inl hof, isInfix_processErrMsg key (env.openErr key)⟩

/-- If the open or decode oracle of a key fails in a non-dry run,
openDecode fails. -/
theorem openDecode_fails {e : EPUBImageProcessor} {env : DecodeEnv} {key : String}
    (hdry : e.Dry = false) (hf : env.openOk key = false ∨ env.decodeOk key = false) :
    ∃ x, openDecode e env key = Except.error x := by
  unfold openDecode
  rw [hdry]
  by_cases ho : env.openOk key = true
  · rcases hf with hf | hf
    · rw [ho] at hf; cases hf
    · exact ⟨⟨processErrMsg key (env.decodeErr key), 1⟩, by simp [ho, hf]⟩
  · have hof : env.openOk key = false := by simpa using ho
    exact ⟨⟨processErrMsg key (env.openErr key), 1⟩, by simp [hof]⟩

/-- Error inversion of a dir worker: the exit code and message come from
its openDecode failure. -/
theorem dirWorker_error_inv {e : EPUBImageProcessor} {env : DecodeEnv} {input : String}
    {j : Nat × String} {f : Fatal} (hdry : e.Dry = false)
    (h : dirWorker e env input j = Except.error f) :
    f.code = 1 ∧ (env.openOk j.2 = false ∨ env.decodeOk j.2 = false)
      ∧ List.IsInfix j.2.data f.msg.data := by
  unfold dirWorker at h
  cases hod : openDecode e env j.2 with
  | error x =>
    rw [hod] at h
    injection h with h
    exact h ▸ openDecode_error_inv hdry hod
  | ok a => rw [hod] at h; cases h

/-- Error inversion of a cbz worker. -/
theorem cbzWorker_error_inv {e : EPUBImageProcessor} {env : DecodeEnv}
    {j : Nat × String} {f : Fatal} (hdry : e.Dry = false)
    (h : cbzWorker e env j = Except.error f) :
    f.code = 1 ∧ (env.openOk j.2 = false ∨ env.decodeOk j.2 = false)
      ∧ List.IsInfix j.2.data f.msg.data := by
  unfold cbzWorker at h
  cases hod : openDecode e env j.2 with
  | error x =>
    rw [hod] at h
    injection h with h
    exact h ▸ openDecode_error_inv hdry hod
  | ok a => rw [hod] at h; cases h

/-- Error inversion of a cbr worker on a listing job. -/
theorem cbrWorker_error_inv {e : EPUBImageProcessor} {env : DecodeEnv}
    {j : CbrJob} {f : Fatal} (hdry : e.Dry = false) (hvia : j.data = CbrData.viaOpen)
    (h : cbrWorker e env j = Except.error f) :
    f.code = 1 ∧ (env.rarEntryOpenOk j.name = false ∨ env.decodeOk j.name = false)
      ∧ List.IsInfix j.name.data f.msg.data := by
  unfold cbrWorker at h
  cases hod : cbrOpenDecode e env j with
  | error x =>
    rw [hod] at h
    injection h with h
    subst h
    unfold cbrOpenDecode at hod
    rw [hdry, hvia] at hod
    by_cases ho : env.rarEntryOpenOk j.name = true
    · by_cases hd : env.decodeOk j.name = true
      · simp [ho, hd] at hod
      · have hdf : env.decodeOk j.name = false := by simpa using hd
        simp only [ho, hdf, Bool.not_false, if_true, if_false, Bool.false_eq_true] at hod
        injection hod with hod
        rw [← hod]
        exact ⟨rfl, Or.inr hdf, isInfix_processErrMsg j.name (env.decodeErr j.name)⟩
    · have hof : env.rarEntryOpenOk j.name = false := by simpa using ho
      simp only [hof, Bool.not_false, if_true, if_false, Bool.false_eq_true] at hod
      injection hod with hod
      rw [← hod]
      exact ⟨rfl, Or.inl hof, isInfix_processErrMsg j.name (env.rarEntryOpenErr j.name)⟩
  | ok a => rw [hod] at h; cases h

/-- If the entry open or decode oracle of a listing job fails in a non-dry
run, the cbr worker fails. -/
theorem cbrWorker_fails {e : EPUBImageProcessor} {env : DecodeEnv} {j : CbrJob}
    (hdry : e.Dry = false) (hvia : j.data = CbrData.viaOpen)
    (hf : env.rarEntryOpenOk j.name = false ∨ env.decodeOk j.name = false) :
    ∃ x, cbrWorker e env j = Except.error x := by
  unfold cbrWorker cbrOpenDecode
  rw [hdry, hvia]
  by_cases ho : env.rarEntryOpenOk j.name = true
  · rcases hf with hf | hf
    · rw [ho] at hf; cases hf
    · exact ⟨⟨processErrMsg j.name (env.decodeErr j.name), 1⟩, by simp [ho, hf, Except.map]⟩
  · have hof : env.rarEntryOpenOk j.name = false := by simpa using ho
    exact ⟨⟨processErrMsg j.name (env.rarEntryOpenErr j.name), 1⟩, by simp [hof, Except.map]⟩

/-- The open-or-decode failure condition of a cbr job: a buffered
solid-branch job opens an in-memory reader that cannot fail, so only its
decode can; a listing job can fail its entry Open or its decode. -/
def cbrJobFails (env : DecodeEnv) (j : CbrJob) : Prop :=
  match j.data with
  | CbrData.buffered _ => env.decodeOk j.name = false
  | CbrData.viaOpen => env.rarEntryOpenOk j.name = false ∨ env.decodeOk j.name = false

/-- Error inversion of a cbr worker on any job, buffered or listed: the
exit code is 1, the job's open or decode failed, and the message names the
entry. -/
theorem cbrWorkerAny_error_inv {e : EPUBImageProcessor} {env : DecodeEnv}
    {j : CbrJob} {f : Fatal} (hdry : e.Dry = false)
    (h : cbrWorker e env j = Except.error f) :
    f.code = 1 ∧ cbrJobFails env j ∧ List.IsInfix j.name.data f.msg.data := by
  rcases j with ⟨id, name, data⟩
  cases data with
  | viaOpen => exact cbrWorker_error_inv hdry rfl h
  | buffered bs =>
    unfold cbrWorker at h
    cases hod : cbrOpenDecode e env ⟨id, name, CbrData.buffered bs⟩ with
    | error x =>
      rw [hod] at h
      injection h with h
      subst h
      unfold cbrOpenDecode at hod
      rw [hdry] at hod
      by_cases hd : env.decodeOk name = true
      · simp [hd] at hod
      · have hdf : env.decodeOk name = false := by simpa using hd
        simp only [hdf, Bool.not_false, if_true, if_false, Bool.false_eq_true] at hod
        injection hod with hod
        rw [← hod]
        exact ⟨rfl, hdf, isInfix_processErrMsg name (env.decodeErr name)⟩
    | ok a => rw [hod] at h; cases h

/-- If a cbr job's open or decode fails in a non-dry run, its worker
fails, on the solid and the non-solid queue alike. -/
theorem cbrWorkerAny_fails {e : EPUBImageProcessor} {env : DecodeEnv} {j : CbrJob}
    (hdry : e.Dry = false) (hf : cbrJobFails env j) :
    ∃ x, cbrWorker e env j = Except.error x := by
  rcases j with ⟨id, name, data⟩
  cases data with
  | viaOpen => exact cbrWorker_fails hdry rfl hf
  | buffered bs =>
    have hdf : env.decodeOk name = false := hf
    unfold cbrWorker cbrOpenDecode
    rw [hdry]
    exact ⟨⟨processErrMsg name (env.decodeErr name), 1⟩, by simp [hdf, Except.map]⟩

/-- Error inversion of a pdf step: the exit code is 1 and extraction of the
1-based page failed. -/
theorem pdfStep_error_inv {e : EPUBImageProcessor} {env : DecodeEnv} {total i : Nat}
    {f : Fatal} (hdry : e.Dry = false) (h : pdfStep e env total i = Except.error f) :
    f.code = 1 ∧ env.pdfExtractOk (i + 1) = false := by
  unfold pdfStep pdfExtract at h
  rw [hdry] at h
  by_cases ho : env.pdfExtractOk (i + 1) = true
  · simp [ho, Except.map] at h
  · have hof : env.pdfExtractOk (i + 1) = false := by simpa using ho
    simp only [hof, Bool.not_false, if_true, if_false, Bool.false_eq_true, Except.map] at h
    injection h with h
    rw [← h]
    exact ⟨rfl, hof⟩

/-- If the extraction oracle of a page fails in a non-dry run, the pdf step
fails. -/
theorem pdfStep_fails {e : EPUBImageProcessor} {env : DecodeEnv} {total i : Nat}
    (hdry : e.Dry = false) (hf : env.pdfExtractOk (i + 1) = false) :
    ∃ x, pdfStep e env total i = Except.error x := by
  unfold pdfStep pdfExtract
  rw [hdry]
  exact ⟨⟨env.pdfExtractErr (i + 1) ++ "\n", 1⟩, by simp [hf, Except.map]⟩

/-- If the open or decode oracle of a job key fails in a non-dry run, the
dir worker fails. -/
theorem dirWorker_fails {e : EPUBImageProcessor} {env : DecodeEnv} {input : String}
    {j : Nat × String} (hdry : e.Dry = false)
    (hf : env.openOk j.2 = false ∨ env.decodeOk j.2 = false) :
    ∃ x, dirWorker e env input j = Except.error x := by
  obtain ⟨x, hx⟩ := openDecode_fails hdry hf
  exact ⟨x, by simp [dirWorker, hx, Except.map]⟩

/-- If the open or decode oracle of a job key fails in a non-dry run, the
cbz worker fails. -/
theorem cbzWorker_fails {e : EPUBImageProcessor} {env : DecodeEnv}
    {j : Nat × String} (hdry : e.Dry = false)
    (hf : env.openOk j.2 = false ∨ env.decodeOk j.2 = false) :
    ∃ x, cbzWorker e env j = Except.error x := by
  obtain ⟨x, hx⟩ := openDecode_fails hdry hf
  exact ⟨x, by simp [cbzWorker, hx, Except.map]⟩

/-! ## String-level lemmas -/

/-- Appending ".epub" always yields extension ".epub". -/
theorem filepathExt_epub (s : String) : filepathExt (s ++ ".epub") = ".epub" := by
  unfold filepathExt
  rw [String.data_append]
  rw [show (".epub" : String).data = ['.', 'e', 'p', 'u', 'b'] from rfl, List.reverse_append]
  rfl

/-- defaultOutput always carries the ".epub" extension. -/
theorem defaultOutput_ext (input : String) (inputIsDir : Bool) :
    filepathExt (defaultOutput input inputIsDir) = ".epub" := by
  unfold defaultOutput
  cases inputIsDir with
  | true => simpa using filepathExt_epub (filepathClean input)
  | false => simpa using filepathExt_epub (stringDropRight (filepathClean input) (filepathExt (filepathClean input)).length)

/-- The zero-padded decimal of n has exactly the target width whenever the
plain decimal of n is no wider. -/
theorem goZeroPad_length {width n : Nat} (h : (toString n).length ≤ width) :
    (goZeroPad width n).length = width := by
  unfold goZeroPad
  by_cases hlt : (toString n).length < width
  · rw [if_pos hlt, String.length_append]
    rw [show (String.mk (List.replicate (width - (toString n).length) '0')).length
        = width - (toString n).length from by
      rw [show (String.mk (List.replicate (width - (toString n).length) '0')).length
          = (List.replicate (width - (toString n).length) '0').length from rfl]
      exact List.length_replicate _ _]
    omega
  · rw [if_neg hlt]
    omega

/-! ## Concrete instances used by the witnesses and counterexamples -/

/-- An environment in which every open, decode, copy and extraction
succeeds and every decode yields the raster 0. -/
def envOK : DecodeEnv :=
  ⟨fun _ => true, fun _ => "", fun _ => true, fun _ => "", fun _ => ⟨0⟩,
   true, "", fun _ => true, fun _ => "", fun _ => true, fun _ => "",
   fun _ => true, fun _ => "", fun _ => ⟨0⟩,
   fun _ => true, fun _ => "", fun _ => ""⟩

/-- A non-dry processor with input path "in" and sort mode 0. -/
def procNonDry : EPUBImageProcessor := ⟨"in", false, 0⟩

/-- A dry processor with input path "in" and sort mode 0. -/
def procDry : EPUBImageProcessor := ⟨"in", true, 0⟩

/-- An environment in which extracting any pdf page fails with "boom". -/
def envPdfBoom : DecodeEnv :=
  { envOK with pdfExtractOk := fun _ => false, pdfExtractErr := fun _ => "boom" }

/-- An environment in which decoding the member bad.jpg fails with "boom". -/
def envBadJpg : DecodeEnv :=
  { envOK with decodeOk := fun p => !(p == "in/bad.jpg"), decodeErr := fun _ => "boom" }

/-- The task list of a dry 12-page pdf run. -/
def pdfTasks12 : List tasks :=
  (List.range 12).map (fun i => ⟨i, none, "", pdfPageName 12 (i + 1)⟩)

/-- The task list of a successful 3-page pdf run. -/
def pdfTasks3 : List tasks :=
  [⟨0, some ⟨0⟩, "", "page 1"⟩, ⟨1, some ⟨0⟩, "", "page 2"⟩, ⟨2, some ⟨0⟩, "", "page 3"⟩]

/-- A zip listing with two members of the same name. -/
def dupZip : List ZipEntry := [⟨"a.jpg", false⟩, ⟨"a.jpg", false⟩]

/-- A solid rar listing with two pages and one non-image member. -/
def solidRar : List RarEntry :=
  [⟨"p2.jpg", false, true, [1, 2]⟩, ⟨"p1.jpg", false, true, [3]⟩,
   ⟨"x.txt", false, false, [9]⟩]

/-! ## Claim theorems -/

/-- The supported source extensions, lowercase. -/
def supportedFormats : List String := [".jpg", ".jpeg", ".png", ".webp"]

/-- C8: the size-limit option with value 0 is accepted (unconstrained);
every value strictly between 0 and 20 is rejected with an error message and
exit code 1 before the conversion pipeline runs; every value at least 20 is
accepted. -/
theorem C8_limitmb (v w : Int) (hv1 : 0 < v) (hv2 : v < 20) (hw : 20 ≤ w) :
    validateLimitMb 0 = Except.ok ()
    ∧ validateLimitMb v = Except.error ("LimitMb should be 0 or >= 20", 1)
    ∧ (∀ pipeline, mainWithLimit v pipeline = Except.error ("LimitMb should be 0 or >= 20", 1))
    ∧ validateLimitMb w = Except.ok () := by
  have hrej : validateLimitMb v = Except.error ("LimitMb should be 0 or >= 20", 1) := by
    unfold validateLimitMb
    rw [if_pos ⟨hv1, hv2⟩]
  refine ⟨rfl, hrej, ?_, ?_⟩
  · intro pipeline
    unfold mainWithLimit
    rw [hrej]
  · unfold validateLimitMb
    rw [if_neg (by omega)]

/-- C8 witness at the boundary values 0, 5 and 20. -/
theorem C8_limitmb_witness :
    validateLimitMb 0 = Except.ok ()
    ∧ validateLimitMb 5 = Except.error ("LimitMb should be 0 or >= 20", 1)
    ∧ mainWithLimit 5 (fun _ => Except.ok ()) = Except.error ("LimitMb should be 0 or >= 20", 1)
    ∧ validateLimitMb 20 = Except.ok () := by
  have h := C8_limitmb 5 20 (by norm_num) (by norm_num) (by norm_num)
  exact ⟨h.1, h.2.1, h.2.2.1 _, h.2.2.2⟩

/-- C9: a non-empty output path whose extension is not ".epub" that stats
as an existing directory receives the base name of the derived default
output joined onto it; an empty output path resolves to the derived
default beside the input. -/
theorem C9_output (input output : String) (inputIsDir : Bool)
    (hne : output ≠ "") (hext : filepathExt output ≠ ".epub") :
    resolveOutput input output inputIsDir (some true)
      = Except.ok (filepathJoin output (filepathBase (defaultOutput input inputIsDir)))
    ∧ ∀ stat, resolveOutput input "" inputIsDir stat
      = Except.ok (defaultOutput input inputIsDir) := by
  constructor
  · simp [resolveOutput, hne, hext]
  · intro stat
    simp [resolveOutput, defaultOutput_ext]

/-- C9 witness: a cbz input with an existing output directory, and the
empty-output default. -/
theorem C9_output_witness :
    resolveOutput "comics/vol1.cbz" "out" false (some true) = Except.ok "out/vol1.epub"
    ∧ resolveOutput "comics/vol1.cbz" "" false none = Except.ok "comics/vol1.epub" := by
  have h := C9_output "comics/vol1.cbz" "out" false (by decide) (by decide)
  exact ⟨h.1, h.2 none⟩

/-- C5: isSupportedImage accepts exactly the paths whose extension,
lowercased, is one of .jpg, .jpeg, .png, .webp; during listing a
non-directory entry of any other extension is excluded from the page list,
and a completed walk never produces an I/O error (only the no-images
sentinel can follow). -/
theorem C5_supported (p : String) (e : EPUBImageProcessor) (env : DecodeEnv)
    (entries : List DirEntry) :
    (isSupportedImage p = true ↔ goToLower (filepathExt p) ∈ supportedFormats)
    ∧ (∀ d ∈ entries, d.isDir = false → isSupportedImage d.path = false →
        d.path ∉ dirImages entries)
    ∧ (∀ m, loadDir e env (Except.ok entries) ≠ Except.error (LoadError.goError m)) := by
  refine ⟨?_, ?_, ?_⟩
  · simp only [isSupportedImage, supportedFormats, Bool.or_eq_true, beq_iff_eq,
      List.mem_cons, List.not_mem_nil, or_false]
    tauto
  · intro d _ _ hsup hmem
    unfold dirImages at hmem
    obtain ⟨d2, hd2, hpath⟩ := List.mem_map.mp hmem
    have hq := (List.mem_filter.mp hd2).2
    rw [hpath] at hq
    simp [hsup] at hq
  · intro m
    simp only [loadDir]
    split
    · intro h
      injection h with h
      cases h
    · intro h
      cases h

/-- C5 witness: a mixed-case supported extension, a skipped text file, and
the absence of an I/O error on a concrete listing. -/
theorem C5_supported_witness :
    isSupportedImage "x.PnG" = true
    ∧ "b.txt" ∉ dirImages [⟨"b.txt", false⟩, ⟨"a.jpg", false⟩]
    ∧ loadDir procNonDry envOK (Except.ok [⟨"b.txt", false⟩, ⟨"a.jpg", false⟩])
        ≠ Except.error (LoadError.goError "boom") := by
  have h := C5_supported "x.PnG" procNonDry envOK [⟨"b.txt", false⟩, ⟨"a.jpg", false⟩]
  refine ⟨h.1.mpr (by decide), ?_, h.2.2 "boom"⟩
  exact h.2.1 ⟨"b.txt", false⟩ (by decide) rfl (by decide)

/-- C10: every successfully produced pdf task list is emitted in strictly
ascending Id order 0, 1, ..., N-1 by the single sequential producer, and
every task has an empty Path. -/
theorem C10_pdf_order (e : EPUBImageProcessor) (env : DecodeEnv) (pdfDoc : Option Nat)
    (n : Nat) (r : Except Fatal (List tasks)) (ts : List tasks)
    (hload : loadPdf e env pdfDoc = Except.ok (n, r)) (hr : r = Except.ok ts) :
    ts.map tasks.Id = List.range n
    ∧ (ts.map tasks.Id).Pairwise (· < ·)
    ∧ ∀ t ∈ ts, t.Path = "" := by
  obtain ⟨hdoc, hrun⟩ := loadPdf_ok_inv hload
  rw [hr] at hrun
  have hids : ts.map tasks.Id = (List.range n).map (fun i => i) :=
    exceptMapM_ok_map (fun a b hb => (pdfStep_ok hb).1) hrun.symm
  rw [List.map_id'] at hids
  refine ⟨hids, ?_, ?_⟩
  · rw [hids]
    exact List.pairwise_lt_range n
  · intro t ht
    have hpaths : ts.map tasks.Path = (List.range n).map (fun _ => "") :=
      exceptMapM_ok_map (fun a b hb => (pdfStep_ok hb).2.1) hrun.symm
    have hmem : t.Path ∈ ts.map tasks.Path := List.mem_map_of_mem tasks.Path ht
    rw [hpaths] at hmem
    obtain ⟨i, _, hip⟩ := List.mem_map.mp hmem
    exact hip.symm

/-- C10 witness: a successful 3-page non-dry pdf run. -/
theorem C10_pdf_order_witness :
    pdfTasks3.map tasks.Id = List.range 3
    ∧ (pdfTasks3.map tasks.Id).Pairwise (· < ·)
    ∧ pdfTasks3.map tasks.Path = ["", "", ""] := by
  have h := C10_pdf_order procNonDry envOK (some 3) 3 (Except.ok pdfTasks3) pdfTasks3 rfl rfl
  exact ⟨h.1, h.2.1, by decide⟩

/-- C6: the i-th pdf task (0-based) is named "page " followed by i+1
left-padded with zeros to the digit width of the page count; when i+1 is no
wider than the page count the name has exactly that padded width. -/
theorem C6_pdf_names (e : EPUBImageProcessor) (env : DecodeEnv) (pdfDoc : Option Nat)
    (n : Nat) (r : Except Fatal (List tasks)) (ts : List tasks)
    (hload : loadPdf e env pdfDoc = Except.ok (n, r)) (hr : r = Except.ok ts) :
    (∀ i, i < ts.length →
      ts[i]?.map tasks.Name = some ("page " ++ goZeroPad (goDigits n) (i + 1)))
    ∧ ∀ i, goDigits (i + 1) ≤ goDigits n →
        (pdfPageName n (i + 1)).length = "page ".length + goDigits n := by
  obtain ⟨hdoc, hrun⟩ := loadPdf_ok_inv hload
  rw [hr] at hrun
  have hnames : ts.map tasks.Name = (List.range n).map (fun i => pdfPageName n (i + 1)) :=
    exceptMapM_ok_map (fun a b hb => (pdfStep_ok hb).2.2) hrun.symm
  have hlen : ts.length = n := by
    have := congrArg List.length hnames
    simpa using this
  constructor
  · intro i hi
    rw [← List.getElem?_map, hnames, List.getElem?_map, List.getElem?_range (by omega)]
    rfl
  · intro i hle
    unfold pdfPageName
    rw [String.length_append, goZeroPad_length hle]

/-- C6 witness: in a 12-page pdf the 0-based page 6 is named "page 07", of
width 5 + 2. -/
theorem C6_pdf_names_witness :
    pdfTasks12[6]?.map tasks.Name = some "page 07"
    ∧ (pdfPageName 12 7).length = "page ".length + goDigits 12 := by
  have h := C6_pdf_names procDry envOK (some 12) 12 (Except.ok pdfTasks12) pdfTasks12
    (by rw [loadPdf_dry rfl envOK 12]; rfl) rfl
  exact ⟨(h.1 6 (by decide)).trans (by decide), h.2 6 (by decide)⟩

/-- C2 (amended): a readable directory, cbz or cbr container with zero
qualifying pages returns the distinct no-images-found error; a readable pdf
with zero pages instead succeeds with totalImages 0 and an empty task
stream. -/
theorem C2_no_images (e : EPUBImageProcessor) (env : DecodeEnv)
    (entries : List DirEntry) (zfiles : List ZipEntry) (rfiles : List RarEntry)
    (hd : dirImages entries = []) (hz : zipImages zfiles = [])
    (hrr : cbrNames rfiles = []) :
    loadDir e env (Except.ok entries) = Except.error LoadError.noImagesFound
    ∧ loadCbz e env (Except.ok zfiles) = Except.error LoadError.noImagesFound
    ∧ loadCbr e env (Except.ok rfiles) = Except.error LoadError.noImagesFound
    ∧ loadPdf e env (some 0) = Except.ok (0, Except.ok []) := by
  refine ⟨?_, ?_, ?_, rfl⟩
  · simp [loadDir, hd]
  · simp [loadCbz, hz]
  · simp [loadCbr, hrr]

/-- C2 counterexample: a readable pdf whose page count is zero succeeds
with zero pages rather than returning the no-images-found error. -/
theorem C2_no_images_cex :
    loadPdf procNonDry envOK (some 0) = Except.ok (0, Except.ok [])
    ∧ loadPdf procNonDry envOK (some 0) ≠ Except.error LoadError.noImagesFound := by
  refine ⟨rfl, ?_⟩
  intro h
  rw [show loadPdf procNonDry envOK (some 0) = Except.ok (0, Except.ok []) from rfl] at h
  exact Except.noConfusion h

/-- C2 witness: concrete readable containers with zero qualifying pages. -/
theorem C2_no_images_witness :
    loadDir procNonDry envOK (Except.ok [⟨"a.txt", false⟩])
      = Except.error LoadError.noImagesFound
    ∧ loadCbz procNonDry envOK (Except.ok [⟨"dir.jpg", true⟩])
      = Except.error LoadError.noImagesFound
    ∧ loadCbr procNonDry envOK (Except.ok [⟨"b.gif", false, false, []⟩])
      = Except.error LoadError.noImagesFound
    ∧ loadPdf procNonDry envOK (some 0) = Except.ok (0, Except.ok []) :=
  C2_no_images procNonDry envOK [⟨"a.txt", false⟩] [⟨"dir.jpg", true⟩]
    [⟨"b.gif", false, false, []⟩] rfl rfl rfl

/-- C4: for a solid rar in a non-dry run with a readable archive, loadCbr
streams the entries once: when every header read and every wanted copy
succeeds, job production succeeds, with exactly one buffered job per
wanted stream entry, carrying its assigned index and an in-memory reader
over exactly its bytes, entries not in the wanted index contributing
nothing; the final header read returning io.EOF terminates production
normally, while a non-EOF header read error anywhere in the stream is
instead fatal with exit code 1. -/
theorem C4_solid_stream (e : EPUBImageProcessor) (env : DecodeEnv) (files : List RarEntry)
    (hsolid : cbrIsSolid files = true) (hdry : e.Dry = false)
    (hopen : env.rarOpenOk = true) :
    ((∀ k, env.rarNextOk k = true) → (∀ f ∈ files, env.rarCopyOk f.name = true) →
      cbrJobs e env files = Except.ok (files.filterMap (fun f =>
        (goMapIdx (cbrSorted e files) f.name).map
          (fun i => ⟨i, f.name, CbrData.buffered f.content⟩))))
    ∧ (∀ js, cbrJobs e env files = Except.ok js → ∀ j ∈ js,
        ∃ f ∈ files, j.name = f.name ∧ j.data = CbrData.buffered f.content
          ∧ goMapIdx (cbrSorted e files) f.name = some j.id)
    ∧ (env.rarNextOk files.length = true →
        cbrStreamJobs env (goMapIdx (cbrSorted e files)) files.length [] = Except.ok [])
    ∧ ((∃ k, k ≤ files.length ∧ env.rarNextOk k = false) →
        ∃ f, cbrJobs e env files = Except.error f ∧ f.code = 1) := by
  have hcond : (cbrIsSolid files && !e.Dry) = true := by rw [hsolid, hdry]; rfl
  have hjobs : cbrJobs e env files
      = cbrStreamJobs env (goMapIdx (cbrSorted e files)) 0 files := by
    unfold cbrJobs
    simp only [hcond, if_true, hopen]
  refine ⟨?_, ?_, ?_, ?_⟩
  · intro hnext hcopy
    rw [hjobs]
    exact cbrStreamJobs_eq hnext 0 hcopy
  · intro js hjs j hj
    rw [hjobs] at hjs
    have hjs2 := cbrStreamJobs_ok_eq hjs
    subst hjs2
    obtain ⟨f, hf, hjf⟩ := List.mem_filterMap.mp hj
    cases hidx : goMapIdx (cbrSorted e files) f.name with
    | none => rw [hidx] at hjf; cases hjf
    | some i =>
      rw [hidx] at hjf
      injection hjf with hjf
      subst hjf
      exact ⟨f, hf, rfl, rfl, hidx⟩
  · intro hnx
    simp [cbrStreamJobs, hnx]
  · rintro ⟨k0, hk0, hfail⟩
    rw [hjobs]
    cases hres : cbrStreamJobs env (goMapIdx (cbrSorted e files)) 0 files with
    | ok js =>
      have hok := cbrStreamJobs_ok_next hres k0 (Nat.zero_le k0) (by omega)
      rw [hok] at hfail
      cases hfail
    | error f => exact ⟨f, rfl, cbrStreamJobs_error_code hres⟩

/-- An environment in which the second header read of the solid stream
fails with "bad header" on a partially read p1.jpg header. -/
def envNextFail : DecodeEnv :=
  { envOK with
      rarNextOk := fun k => !(k == 1)
      rarNextErrName := fun _ => "p1.jpg"
      rarNextErr := fun _ => "bad header" }

/-- C4 witness: a concrete solid rar with two wanted entries and one
skipped non-image entry, streamed once to a clean EOF; and the same
archive with a failing second header read, which is fatal. -/
theorem C4_solid_stream_witness :
    cbrJobs procNonDry envOK solidRar
      = Except.ok [⟨1, "p2.jpg", CbrData.buffered [1, 2]⟩,
                   ⟨0, "p1.jpg", CbrData.buffered [3]⟩]
    ∧ ∃ f, cbrJobs procNonDry envNextFail solidRar = Except.error f ∧ f.code = 1 := by
  have h := C4_solid_stream procNonDry envOK solidRar rfl rfl rfl
  have h2 := C4_solid_stream procNonDry envNextFail solidRar rfl rfl rfl
  exact ⟨h.1 (fun _ => rfl) (fun f _ => rfl), h2.2.2.2 ⟨1, by decide, rfl⟩⟩

/-- C1 (amended): the Ids assigned to the emitted tasks of a successful
load are a permutation of 0..N-1 for every directory and pdf container
unconditionally, and for every cbz and cbr container whose qualifying (for
cbr: all) member names are duplicate-free. -/
theorem C1_ids (e : EPUBImageProcessor) (env : DecodeEnv)
    (entries : List DirEntry) (zfiles : List ZipEntry) (rfiles : List RarEntry)
    (pdfDoc : Option Nat)
    (hz : ((zipImages zfiles).map ZipEntry.name).Nodup)
    (hrn : (rfiles.map RarEntry.name).Nodup) :
    (∀ n r ts, loadDir e env (Except.ok entries) = Except.ok (n, r) →
      r = Except.ok ts → List.Perm (ts.map tasks.Id) (List.range n))
    ∧ (∀ n r ts, loadCbz e env (Except.ok zfiles) = Except.ok (n, r) →
      r = Except.ok ts → List.Perm (ts.map tasks.Id) (List.range n))
    ∧ (∀ n r ts, loadCbr e env (Except.ok rfiles) = Except.ok (n, r) →
      r = Except.ok ts → List.Perm (ts.map tasks.Id) (List.range n))
    ∧ (∀ n r ts, loadPdf e env pdfDoc = Except.ok (n, r) →
      r = Except.ok ts → List.Perm (ts.map tasks.Id) (List.range n)) := by
  refine ⟨?_, ?_, ?_, ?_⟩
  · intro n r ts hload hr2
    obtain ⟨hn, h0, hrun⟩ := loadDir_ok_inv hload
    rw [hr2] at hrun
    have hids : ts.map tasks.Id = (loadDirJobs e entries).map Prod.fst :=
      exceptMapM_ok_map (fun a b hb => dirWorker_Id hb) hrun.symm
    rw [hids]
    unfold loadDirJobs
    rw [List.enum_map_fst, (sortpathBy_perm e.SortPathMode (dirImages entries)).length_eq, ← hn]
  · intro n r ts hload hr2
    obtain ⟨hn, h0, hrun⟩ := loadCbz_ok_inv hload
    rw [hr2] at hrun
    have hids : ts.map tasks.Id = (loadCbzJobs e zfiles).map Prod.fst :=
      exceptMapM_ok_map (fun a b hb => cbzWorker_Id hb) hrun.symm
    rw [hids]
    unfold loadCbzJobs
    rw [List.map_map]
    have hcomp : (Prod.fst ∘ fun f : ZipEntry =>
        ((goMapIdx (cbzSorted e zfiles) f.name).getD 0, f.name))
        = fun f : ZipEntry => (goMapIdx (cbzSorted e zfiles) f.name).getD 0 := rfl
    rw [hcomp]
    have hmm : (zipImages zfiles).map
        (fun f => (goMapIdx (cbzSorted e zfiles) f.name).getD 0)
        = ((zipImages zfiles).map ZipEntry.name).map
            (fun nm => (goMapIdx (cbzSorted e zfiles) nm).getD 0) := by
      rw [List.map_map]
      rfl
    rw [hmm]
    have hperm := idsPerm hz (sortpathBy_perm e.SortPathMode ((zipImages zfiles).map ZipEntry.name))
    rw [List.length_map] at hperm
    rw [hn]
    exact hperm
  · intro n r ts hload hr2
    obtain ⟨hn, h0, hrun⟩ := loadCbr_ok_inv hload
    rw [hr2] at hrun
    cases hjobs : cbrJobs e env rfiles with
    | error f => simp only [hjobs] at hrun; cases hrun
    | ok js =>
      simp only [hjobs] at hrun
      have hids : ts.map tasks.Id = js.map CbrJob.id :=
        exceptMapM_ok_map (fun a b hb => cbrWorker_Id hb) hrun.symm
      rw [hids, hn]
      exact cbrJobs_ids_perm hrn hjobs
  · intro n r ts hload hr2
    obtain ⟨hdoc, hrun⟩ := loadPdf_ok_inv hload
    rw [hr2] at hrun
    have hids : ts.map tasks.Id = (List.range n).map (fun i => i) :=
      exceptMapM_ok_map (fun a b hb => (pdfStep_ok hb).1) hrun.symm
    rw [List.map_id'] at hids
    rw [hids]

/-- C1 counterexample: a zip archive with two members of the same name
loads successfully with two tasks but the Ids are [1, 1]: a duplicate and a
gap, not the set of indexes 0 and 1. -/
theorem C1_ids_cex :
    loadCbz procNonDry envOK (Except.ok dupZip)
      = Except.ok (2, Except.ok [⟨1, some ⟨0⟩, "", "a.jpg"⟩, ⟨1, some ⟨0⟩, "", "a.jpg"⟩])
    ∧ ¬ List.Perm ([1, 1] : List Nat) (List.range 2) := by
  exact ⟨rfl, by decide⟩

/-- The tasks of the non-dry directory witness run. -/
def dirTasksW : List tasks :=
  [⟨0, some ⟨0⟩, "", "b2.jpg"⟩, ⟨1, some ⟨0⟩, "", "b10.jpg"⟩]

/-- The tasks of the non-dry cbz witness run. -/
def cbzTasksW : List tasks :=
  [⟨1, some ⟨0⟩, "", "b.jpg"⟩, ⟨0, some ⟨0⟩, "", "a.png"⟩]

/-- The tasks of the non-dry solid cbr witness run. -/
def cbrTasksW : List tasks :=
  [⟨1, some ⟨0⟩, "", "p2.jpg"⟩, ⟨0, some ⟨0⟩, "", "p1.jpg"⟩]

/-- The walked entries of the directory witness runs. -/
def dirEntriesW : List DirEntry := [⟨"in/b2.jpg", false⟩, ⟨"in/b10.jpg", false⟩]

/-- The zip listing of the cbz witness runs. -/
def zipFilesW : List ZipEntry := [⟨"b.jpg", false⟩, ⟨"a.png", false⟩]

/-- C1 witness: the four loaders on concrete duplicate-free containers. -/
theorem C1_ids_witness :
    List.Perm (dirTasksW.map tasks.Id) (List.range 2)
    ∧ List.Perm (cbzTasksW.map tasks.Id) (List.range 2)
    ∧ List.Perm (cbrTasksW.map tasks.Id) (List.range 2)
    ∧ List.Perm (pdfTasks3.map tasks.Id) (List.range 3) := by
  have h := C1_ids procNonDry envOK dirEntriesW zipFilesW solidRar (some 3)
    (by decide) (by decide)
  exact ⟨h.1 2 (Except.ok dirTasksW) dirTasksW rfl rfl,
    h.2.1 2 (Except.ok cbzTasksW) cbzTasksW rfl rfl,
    h.2.2.1 2 (Except.ok cbrTasksW) cbrTasksW rfl rfl,
    h.2.2.2 3 (Except.ok pdfTasks3) pdfTasks3 rfl rfl⟩

/-- C3: for every container, when the non-dry run succeeds, the dry run on
the same container returns the same totalImages and a task list with
identical (Id, Path, Name) triples in the same order, every Image nil, and
the dry result is independent of the open/decode environment. -/
theorem C3_dry_equiv (e : EPUBImageProcessor) (env : DecodeEnv)
    (entries : List DirEntry) (zfiles : List ZipEntry) (rfiles : List RarEntry)
    (npdf : Nat) :
    (∀ n ts, loadDir {e with Dry := false} env (Except.ok entries)
        = Except.ok (n, Except.ok ts) →
      ∃ ts2, loadDir {e with Dry := true} env (Except.ok entries)
          = Except.ok (n, Except.ok ts2)
        ∧ ts2.map taskTriple = ts.map taskTriple
        ∧ (∀ t ∈ ts2, t.Image = none)
        ∧ ∀ env2, loadDir {e with Dry := true} env2 (Except.ok entries)
            = loadDir {e with Dry := true} env (Except.ok entries))
    ∧ (∀ n ts, loadCbz {e with Dry := false} env (Except.ok zfiles)
        = Except.ok (n, Except.ok ts) →
      ∃ ts2, loadCbz {e with Dry := true} env (Except.ok zfiles)
          = Except.ok (n, Except.ok ts2)
        ∧ ts2.map taskTriple = ts.map taskTriple
        ∧ (∀ t ∈ ts2, t.Image = none)
        ∧ ∀ env2, loadCbz {e with Dry := true} env2 (Except.ok zfiles)
            = loadCbz {e with Dry := true} env (Except.ok zfiles))
    ∧ (∀ n ts, loadCbr {e with Dry := false} env (Except.ok rfiles)
        = Except.ok (n, Except.ok ts) →
      ∃ ts2, loadCbr {e with Dry := true} env (Except.ok rfiles)
          = Except.ok (n, Except.ok ts2)
        ∧ ts2.map taskTriple = ts.map taskTriple
        ∧ (∀ t ∈ ts2, t.Image = none)
        ∧ ∀ env2, loadCbr {e with Dry := true} env2 (Except.ok rfiles)
            = loadCbr {e with Dry := true} env (Except.ok rfiles))
    ∧ (∀ n ts, loadPdf {e with Dry := false} env (some npdf)
        = Except.ok (n, Except.ok ts) →
      ∃ ts2, loadPdf {e with Dry := true} env (some npdf)
          = Except.ok (n, Except.ok ts2)
        ∧ ts2.map taskTriple = ts.map taskTriple
        ∧ (∀ t ∈ ts2, t.Image = none)
        ∧ ∀ env2, loadPdf {e with Dry := true} env2 (some npdf)
            = loadPdf {e with Dry := true} env (some npdf)) := by
  refine ⟨?_, ?_, ?_, ?_⟩
  · intro n ts hload
    obtain ⟨hn, h0, hrun⟩ := loadDir_ok_inv hload
    refine ⟨(loadDirJobs e entries).map
        (fun j => mkDirTask (filepathClean e.Input) j none), ?_, ?_, ?_, ?_⟩
    · rw [loadDir_dry rfl env entries, if_neg h0, hn]
      rfl
    · rw [List.map_map]
      have hws : ts.map taskTriple = (loadDirJobs e entries).map
          (fun j => taskTriple (mkDirTask (filepathClean e.Input) j none)) :=
        exceptMapM_ok_map (fun a b hb => dirWorker_ok hb) hrun.symm
      rw [hws]
      rfl
    · intro t ht
      obtain ⟨j, _, hj⟩ := List.mem_map.mp ht
      rw [← hj]
      rfl
    · intro env2
      rw [loadDir_dry rfl env2 entries, loadDir_dry rfl env entries]
  · intro n ts hload
    obtain ⟨hn, h0, hrun⟩ := loadCbz_ok_inv hload
    refine ⟨(loadCbzJobs e zfiles).map (fun j => mkArchiveTask j.1 j.2 none), ?_, ?_, ?_, ?_⟩
    · rw [loadCbz_dry rfl env zfiles, if_neg h0, hn]
      rfl
    · rw [List.map_map]
      have hws : ts.map taskTriple = (loadCbzJobs e zfiles).map
          (fun j => taskTriple (mkArchiveTask j.1 j.2 none)) :=
        exceptMapM_ok_map (fun a b hb => cbzWorker_ok hb) hrun.symm
      rw [hws]
      rfl
    · intro t ht
      obtain ⟨j, _, hj⟩ := List.mem_map.mp ht
      rw [← hj]
      rfl
    · intro env2
      rw [loadCbz_dry rfl env2 zfiles, loadCbz_dry rfl env zfiles]
  · intro n ts hload
    obtain ⟨hn, h0, hrun⟩ := loadCbr_ok_inv hload
    cases hjobs : cbrJobs {e with Dry := false} env rfiles with
    | error f => simp only [hjobs] at hrun; cases hrun
    | ok js =>
      simp only [hjobs] at hrun
      have hpairs := cbrJobs_pairs hjobs
      refine ⟨(cbrListJobs rfiles (goMapIdx (cbrSorted e rfiles))).map
          (fun j => mkArchiveTask j.id j.name none), ?_, ?_, ?_, ?_⟩
      · rw [loadCbr_dry rfl env rfiles, if_neg h0, hn]
        rfl
      · rw [List.map_map]
        have hcompL : (taskTriple ∘ fun j : CbrJob => mkArchiveTask j.id j.name none)
            = fun j : CbrJob => taskTriple (mkArchiveTask j.id j.name none) := rfl
        rw [hcompL]
        have hws : ts.map taskTriple = js.map
            (fun j => taskTriple (mkArchiveTask j.id j.name none)) :=
          exceptMapM_ok_map (fun a b hb => cbrWorker_ok hb) hrun.symm
        have hjs : js.map (fun j => taskTriple (mkArchiveTask j.id j.name none))
            = (js.map (fun j => (j.id, j.name))).map
                (fun p => taskTriple (mkArchiveTask p.1 p.2 none)) := by
          rw [List.map_map]
          rfl
        have hlst : (cbrListJobs rfiles (goMapIdx (cbrSorted e rfiles))).map
              (fun j => taskTriple (mkArchiveTask j.id j.name none))
            = ((cbrListJobs rfiles (goMapIdx (cbrSorted e rfiles))).map
                (fun j => (j.id, j.name))).map
                (fun p => taskTriple (mkArchiveTask p.1 p.2 none)) := by
          rw [List.map_map]
          rfl
        have hse : cbrSorted {e with Dry := false} rfiles = cbrSorted e rfiles := rfl
        rw [hse] at hpairs
        rw [hws, hjs, hlst, hpairs]
      · intro t ht
        obtain ⟨j, _, hj⟩ := List.mem_map.mp ht
        rw [← hj]
        rfl
      · intro env2
        rw [loadCbr_dry rfl env2 rfiles, loadCbr_dry rfl env rfiles]
  · intro n ts hload
    obtain ⟨hdoc, hrun⟩ := loadPdf_ok_inv hload
    injection hdoc with hdoc
    subst hdoc
    refine ⟨(List.range npdf).map (fun i => ⟨i, none, "", pdfPageName npdf (i + 1)⟩),
      ?_, ?_, ?_, ?_⟩
    · rw [loadPdf_dry rfl env npdf]
    · rw [List.map_map]
      have hws : ts.map taskTriple = (List.range npdf).map
          (fun i => ((i : Nat), ("" : String), pdfPageName npdf (i + 1))) :=
        exceptMapM_ok_map (fun a b hb => by
          obtain ⟨h1, h2, h3⟩ := pdfStep_ok hb
          unfold taskTriple
          rw [h1, h2, h3]) hrun.symm
      rw [hws]
      rfl
    · intro t ht
      obtain ⟨j, _, hj⟩ := List.mem_map.mp ht
      rw [← hj]
    · intro env2
      rw [loadPdf_dry rfl env2 npdf, loadPdf_dry rfl env npdf]

/-- C3 witness: the four loaders on concrete containers whose non-dry runs
succeed. -/
theorem C3_dry_equiv_witness :
    (∃ ts2, loadDir {procNonDry with Dry := true} envOK (Except.ok dirEntriesW)
        = Except.ok (2, Except.ok ts2)
      ∧ ts2.map taskTriple = dirTasksW.map taskTriple
      ∧ (∀ t ∈ ts2, t.Image = none)
      ∧ ∀ env2, loadDir {procNonDry with Dry := true} env2 (Except.ok dirEntriesW)
          = loadDir {procNonDry with Dry := true} envOK (Except.ok dirEntriesW))
    ∧ (∃ ts2, loadCbz {procNonDry with Dry := true} envOK (Except.ok zipFilesW)
        = Except.ok (2, Except.ok ts2)
      ∧ ts2.map taskTriple = cbzTasksW.map taskTriple
      ∧ (∀ t ∈ ts2, t.Image = none)
      ∧ ∀ env2, loadCbz {procNonDry with Dry := true} env2 (Except.ok zipFilesW)
          = loadCbz {procNonDry with Dry := true} envOK (Except.ok zipFilesW))
    ∧ (∃ ts2, loadCbr {procNonDry with Dry := true} envOK (Except.ok solidRar)
        = Except.ok (2, Except.ok ts2)
      ∧ ts2.map taskTriple = cbrTasksW.map taskTriple
      ∧ (∀ t ∈ ts2, t.Image = none)
      ∧ ∀ env2, loadCbr {procNonDry with Dry := true} env2 (Except.ok solidRar)
          = loadCbr {procNonDry with Dry := true} envOK (Except.ok solidRar))
    ∧ (∃ ts2, loadPdf {procNonDry with Dry := true} envOK (some 3)
        = Except.ok (3, Except.ok ts2)
      ∧ ts2.map taskTriple = pdfTasks3.map taskTriple
      ∧ (∀ t ∈ ts2, t.Image = none)
      ∧ ∀ env2, loadPdf {procNonDry with Dry := true} env2 (some 3)
          = loadPdf {procNonDry with Dry := true} envOK (some 3)) := by
  have h := C3_dry_equiv procNonDry envOK dirEntriesW zipFilesW solidRar 3
  exact ⟨h.1 2 dirTasksW rfl, h.2.1 2 cbzTasksW rfl,
    h.2.2.1 2 cbrTasksW rfl, h.2.2.2 3 pdfTasks3 rfl⟩

/-- C7 (amended): in a non-dry run a failing open or decode of any single
entry makes the whole decode phase fatal with exit code 1 and no task list
returned; for directory, cbz and cbr entries — on the solid buffered queue
as much as on the listing queue — the written message names the offending
path or name; for a pdf page only the extraction error itself is
written. -/
theorem C7_fatal (e : EPUBImageProcessor) (env : DecodeEnv)
    (entries : List DirEntry) (zfiles : List ZipEntry) (rfiles : List RarEntry)
    (pdfDoc : Option Nat) (hdry : e.Dry = false) :
    (∀ n r, loadDir e env (Except.ok entries) = Except.ok (n, r) →
      (∃ j ∈ loadDirJobs e entries, env.openOk j.2 = false ∨ env.decodeOk j.2 = false) →
      ∃ f, r = Except.error f ∧ f.code = 1
        ∧ ∃ j ∈ loadDirJobs e entries,
            (env.openOk j.2 = false ∨ env.decodeOk j.2 = false)
            ∧ List.IsInfix j.2.data f.msg.data)
    ∧ (∀ n r, loadCbz e env (Except.ok zfiles) = Except.ok (n, r) →
      (∃ j ∈ loadCbzJobs e zfiles, env.openOk j.2 = false ∨ env.decodeOk j.2 = false) →
      ∃ f, r = Except.error f ∧ f.code = 1
        ∧ ∃ j ∈ loadCbzJobs e zfiles,
            (env.openOk j.2 = false ∨ env.decodeOk j.2 = false)
            ∧ List.IsInfix j.2.data f.msg.data)
    ∧ (∀ n r js, loadCbr e env (Except.ok rfiles) = Except.ok (n, r) →
      cbrJobs e env rfiles = Except.ok js →
      (∃ j ∈ js, cbrJobFails env j) →
      ∃ f, r = Except.error f ∧ f.code = 1
        ∧ ∃ j ∈ js, cbrJobFails env j ∧ List.IsInfix j.name.data f.msg.data)
    ∧ (∀ n r, loadPdf e env pdfDoc = Except.ok (n, r) →
      (∃ i, i < n ∧ env.pdfExtractOk (i + 1) = false) →
      ∃ f, r = Except.error f ∧ f.code = 1) := by
  refine ⟨?_, ?_, ?_, ?_⟩
  · intro n r hload hex
    obtain ⟨hn, h0, hrun⟩ := loadDir_ok_inv hload
    obtain ⟨j, hj, hfail⟩ := hex
    obtain ⟨x, hx⟩ := dirWorker_fails hdry hfail
    obtain ⟨f, hferr, a, ha, hwa⟩ := exceptMapM_error_exists ⟨j, hj, x, hx⟩
    obtain ⟨hcode, hora, hinf⟩ := dirWorker_error_inv hdry hwa
    exact ⟨f, by rw [hrun, hferr], hcode, a, ha, hora, hinf⟩
  · intro n r hload hex
    obtain ⟨hn, h0, hrun⟩ := loadCbz_ok_inv hload
    obtain ⟨j, hj, hfail⟩ := hex
    obtain ⟨x, hx⟩ := cbzWorker_fails hdry hfail
    obtain ⟨f, hferr, a, ha, hwa⟩ := exceptMapM_error_exists ⟨j, hj, x, hx⟩
    obtain ⟨hcode, hora, hinf⟩ := cbzWorker_error_inv hdry hwa
    exact ⟨f, by rw [hrun, hferr], hcode, a, ha, hora, hinf⟩
  · intro n r js hload hjobs hex
    obtain ⟨hn, h0, hrun⟩ := loadCbr_ok_inv hload
    simp only [hjobs] at hrun
    obtain ⟨j, hj, hfail⟩ := hex
    obtain ⟨x, hx⟩ := cbrWorkerAny_fails hdry hfail
    obtain ⟨f, hferr, a, ha, hwa⟩ := exceptMapM_error_exists ⟨j, hj, x, hx⟩
    obtain ⟨hcode, hora, hinf⟩ := cbrWorkerAny_error_inv hdry hwa
    exact ⟨f, by rw [hrun, hferr], hcode, a, ha, hora, hinf⟩
  · intro n r hload hex
    obtain ⟨hdoc, hrun⟩ := loadPdf_ok_inv hload
    obtain ⟨i, hi, hfail⟩ := hex
    obtain ⟨x, hx⟩ := @pdfStep_fails e env n i hdry hfail
    obtain ⟨f, hferr, a, ha, hwa⟩ :=
      exceptMapM_error_exists ⟨i, List.mem_range.mpr hi, x, hx⟩
    obtain ⟨hcode, _⟩ := pdfStep_error_inv hdry hwa
    exact ⟨f, by rw [hrun, hferr], hcode⟩

/-- C7 counterexample: a failing pdf page extraction terminates the run
with exit code 1, but the written message "boom" does not name the
offending page. -/
theorem C7_fatal_cex :
    loadPdf procNonDry envPdfBoom (some 1) = Except.ok (1, Except.error ⟨"boom\n", 1⟩)
    ∧ ¬ List.IsInfix ("page 1" : String).data ("boom\n" : String).data := by
  refine ⟨rfl, ?_⟩
  rintro ⟨s, t, hst⟩
  have hlen := congrArg List.length hst
  simp only [List.length_append] at hlen
  rw [show ("page 1" : String).data.length = 6 from rfl,
    show ("boom\n" : String).data.length = 5 from rfl] at hlen
  omega

/-- An environment in which decoding the member p1.jpg fails with
"boom". -/
def envBadP1 : DecodeEnv :=
  { envOK with decodeOk := fun nm => !(nm == "p1.jpg"), decodeErr := fun _ => "boom" }

/-- C7 witness: a failing decode of a directory entry and of a buffered
solid-rar entry are each fatal with exit code 1 and a message naming the
entry, and a failing pdf extraction is fatal with exit code 1. -/
theorem C7_fatal_witness :
    (∃ f, (Except.error ⟨"\nerror processing image in/bad.jpg: boom\n", 1⟩
          : Except Fatal (List tasks)) = Except.error f
      ∧ f.code = 1
      ∧ ∃ j ∈ loadDirJobs procNonDry [⟨"in/bad.jpg", false⟩],
          (envBadJpg.openOk j.2 = false ∨ envBadJpg.decodeOk j.2 = false)
          ∧ List.IsInfix j.2.data f.msg.data)
    ∧ (∃ f, (Except.error ⟨"\nerror processing image p1.jpg: boom\n", 1⟩
          : Except Fatal (List tasks)) = Except.error f
      ∧ f.code = 1
      ∧ ∃ j ∈ [(⟨1, "p2.jpg", CbrData.buffered [1, 2]⟩ : CbrJob),
               ⟨0, "p1.jpg", CbrData.buffered [3]⟩],
          cbrJobFails envBadP1 j ∧ List.IsInfix j.name.data f.msg.data)
    ∧ ∃ f, (Except.error ⟨"boom\n", 1⟩ : Except Fatal (List tasks)) = Except.error f
      ∧ f.code = 1 := by
  have h := C7_fatal procNonDry envBadJpg [⟨"in/bad.jpg", false⟩] [] [] (some 1) rfl
  have h3 := C7_fatal procNonDry envBadP1 [] [] solidRar none rfl
  have h2 := C7_fatal procNonDry envPdfBoom [] [] [] (some 1) rfl
  refine ⟨?_, ?_, ?_⟩
  · exact h.1 1 (Except.error ⟨"\nerror processing image in/bad.jpg: boom\n", 1⟩) rfl
      ⟨(0, "in/bad.jpg"), by decide, Or.inr (by decide)⟩
  · exact h3.2.2.1 2 (Except.error ⟨"\nerror processing image p1.jpg: boom\n", 1⟩)
      [⟨1, "p2.jpg", CbrData.buffered [1, 2]⟩, ⟨0, "p1.jpg", CbrData.buffered [3]⟩]
      rfl rfl
      ⟨⟨0, "p1.jpg", CbrData.buffered [3]⟩, by decide,
        (rfl : envBadP1.decodeOk "p1.jpg" = false)⟩
  · exact h2.2.2.2 1 (Except.error ⟨"boom\n", 1⟩) rfl ⟨0, by decide, rfl⟩
